import Mathlib

/-!
Shallow embedding of the transaction classification and formatting pipeline of
the NextVibe-LazorKit wallet application, together with proofs of the
specification claims about it.

The embedded code comes from:
- src/unnamed/part_008 (src/utils/solana/transactionParser.ts): MIN_SOL_CHANGE,
  extractSOLAddresses, extractTokenAddresses, formatTransactions;
- src/src/utils/solana/transactionUtils.ts: groupTransactionsByDate;
- src/screens/TransactionsHistoryScreen.tsx: fetchTransactions, loadMore.

Modelling conventions:
- JavaScript numbers holding lamport balances are modelled as Int (they are
  integral in the source data); UI-scaled token amounts are modelled as Rat.
- Nullable / possibly-undefined fields are modelled as Option.
- JavaScript truthiness on strings (empty string is falsy) is modelled by the
  jsOrStr / jsOrOptStr helpers.
- Out-of-range array reads, which the source performs only on balance arrays,
  are modelled as reading 0 (the source either guards them with an index
  obtained from the same arrays or coalesces with ?? 0).
-/

namespace NextVibe

/-- Formatted transaction object (src/src/types/solana.ts). The field names
from and to of the source are rendered fromAddr and toAddr; time is the
millisecond timestamp wrapped by the Date object, or none. -/
structure FormattedTransaction where
  signature : String
  type : String
  token : String
  amount : ℚ
  fromAddr : String
  toAddr : String
  time : Option Int
deriving DecidableEq, Repr

/-- Parsed instruction info object: source and destination are present on
parsed transfer instructions; authority is optional. -/
structure IxInfo where
  source : String
  destination : String
  authority : Option String
deriving DecidableEq, Repr

/-- The parsed part of an instruction: a type tag and its info. -/
structure IxParsed where
  type : String
  info : IxInfo
deriving DecidableEq, Repr

/-- One instruction of a parsed transaction. Both the program tag and the
parsed payload may be absent. -/
structure Instruction where
  program : Option String
  parsed : Option IxParsed
deriving DecidableEq, Repr

/-- One inner-instruction group of meta.innerInstructions. -/
structure InnerInstructionGroup where
  instructions : List Instruction
deriving DecidableEq, Repr

/-- One entry of pre/postTokenBalances: an account index into the account-key
list, an optional owner wallet, a mint, and the nullable uiAmount of the
uiTokenAmount object. -/
structure TokenBalance where
  accountIndex : Nat
  owner : Option String
  mint : String
  uiAmount : Option ℚ
deriving DecidableEq, Repr

/-- The meta object of a parsed transaction. A non-null meta.err is modelled
as err = true. -/
structure TxMeta where
  err : Bool
  preBalances : List Int
  postBalances : List Int
  innerInstructions : Option (List InnerInstructionGroup)
  preTokenBalances : Option (List TokenBalance)
  postTokenBalances : Option (List TokenBalance)
deriving DecidableEq, Repr

/-- The message of a transaction; accountKeys is already the list of base58
strings (the source maps k.pubkey.toBase58() before use). -/
structure TxMessage where
  accountKeys : List String
  instructions : List Instruction
deriving DecidableEq, Repr

/-- The transaction body. -/
structure Transaction where
  signatures : List String
  message : TxMessage
deriving DecidableEq, Repr

/-- ParsedTransactionWithMeta as consumed by formatTransactions; the source
checks !tx.meta and !tx.transaction, so both are Options here. -/
structure ParsedTransactionWithMeta where
  transaction : Option Transaction
  meta : Option TxMeta
  blockTime : Option Int
deriving DecidableEq, Repr

/-- A resolved counterparty pair, the value built by extractSOLAddresses and
extractTokenAddresses (from/to in the source). -/
structure Addresses where
  fromAddr : String
  toAddr : String
deriving DecidableEq, Repr

/-- JavaScript a || b on strings: the empty string is the only falsy string. -/
def jsOrStr (a b : String) : String :=
  if a = "" then b else a

/-- JavaScript a || b where a is a nullable string: null, undefined and the
empty string fall through to b. -/
def jsOrOptStr (a : Option String) (b : String) : String :=
  match a with
  | some s => jsOrStr s b
  | none => b

/-- JavaScript indexOf on a string array, with -1 modelled as none. -/
def indexOfAux (a : String) : List String → Nat → Option Nat
  | [], _ => none
  | x :: xs, i => if x = a then some i else indexOfAux a xs (i + 1)

/-- jsIndexOf l a is the first index of a in l, or none. -/
def jsIndexOf (l : List String) (a : String) : Option Nat :=
  indexOfAux a l 0

/-- Minimum amount of lamports change to consider a transaction valid
(src/unnamed/part_008, line 81). -/
def MIN_SOL_CHANGE : Int := 5000

/-- Lamports per SOL (solana web3 constant). -/
def LAMPORTS_PER_SOL : Int := 1000000000

/-- The hardcoded USDC mint (src/constants/Tokens.ts). -/
def USDC_MINT : String := "4zMMC9srt5Ri5X14GAgXhaHii3GnPAEERYPJgZJDncDU"

/-- Top-level instructions of a transaction
(tx.transaction.message.instructions; empty when the body is absent — the
source only calls the extractors after the null check in formatTransactions). -/
def topInstructions (tx : ParsedTransactionWithMeta) : List Instruction :=
  match tx.transaction with
  | some t => t.message.instructions
  | none => []

/-- Flattened inner instructions (the forEach over tx.meta.innerInstructions
that appends each group in order). -/
def innerInstrs (tx : ParsedTransactionWithMeta) : List Instruction :=
  match tx.meta with
  | some m =>
    match m.innerInstructions with
    | some gs => (gs.map (fun g => g.instructions)).join
    | none => []
  | none => []

/-- allInstructions: top-level followed by flattened inner instructions, the
scan order used by both extractors. -/
def allInstructions (tx : ParsedTransactionWithMeta) : List Instruction :=
  topInstructions tx ++ innerInstrs tx

/-- Account keys as base58 strings (tx.transaction.message.accountKeys after
the toBase58 map). -/
def accountKeyStrings (tx : ParsedTransactionWithMeta) : List String :=
  match tx.transaction with
  | some t => t.message.accountKeys
  | none => []

/-- The find predicate of extractSOLAddresses: a parsed system transfer whose
source or destination is the tracked address. -/
def isMySystemTransfer (myAddress : String) (ix : Instruction) : Bool :=
  ix.program = some "system" &&
    match ix.parsed with
    | some p =>
      p.type = "transfer" &&
        (p.info.source = myAddress || p.info.destination = myAddress)
    | none => false

/-- Balance delta of account i: postBalances[i] - preBalances[i]. Out-of-range
reads are modelled as 0. -/
def balDiff (preBalances postBalances : List Int) (i : Nat) : Int :=
  postBalances.getD i 0 - preBalances.getD i 0

/-- The SENT branch loop of the balance-change fallback in
extractSOLAddresses: scan account indices in order, skip the tracked index,
and replace the accumulator (maxChange, counterparty) only when the balance
increase strictly exceeds the current maxChange. -/
def maxIncreaseLoop (myIndex : Nat) (keys : List String)
    (preBalances postBalances : List Int) :
    List Nat → Int × String → Int × String
  | [], acc => acc
  | i :: rest, acc =>
    maxIncreaseLoop myIndex keys preBalances postBalances rest
      (if i = myIndex then acc
       else
         let diff := balDiff preBalances postBalances i
         if acc.1 < diff then (diff, keys.getD i "") else acc)

/-- The RECEIVED branch loop of the balance-change fallback: replace the
accumulator only when the delta is negative and its absolute value strictly
exceeds the current maxChange. -/
def maxDecreaseLoop (myIndex : Nat) (keys : List String)
    (preBalances postBalances : List Int) :
    List Nat → Int × String → Int × String
  | [], acc => acc
  | i :: rest, acc =>
    maxDecreaseLoop myIndex keys preBalances postBalances rest
      (if i = myIndex then acc
       else
         let diff := balDiff preBalances postBalances i
         if diff < 0 && acc.1 < |diff| then (|diff|, keys.getD i "") else acc)

/-- extractSOLAddresses (src/unnamed/part_008, lines 87-158). Every path of
the source returns a non-null value; the Option return type mirrors the
declared nullable TypeScript type. The branch for a found instruction without
a parsed payload is unreachable because the find predicate requires it. -/
def extractSOLAddresses (tx : ParsedTransactionWithMeta) (myAddress : String) :
    Option Addresses :=
  match (allInstructions tx).find? (isMySystemTransfer myAddress) with
  | some ix =>
    match ix.parsed with
    | some p => some ⟨p.info.source, p.info.destination⟩
    | none => some ⟨"", ""⟩
  | none =>
    let accountKeys := accountKeyStrings tx
    let preBalances := (tx.meta.map (fun m => m.preBalances)).getD []
    let postBalances := (tx.meta.map (fun m => m.postBalances)).getD []
    match jsIndexOf accountKeys myAddress with
    | none => some ⟨"external", "external"⟩
    | some myIndex =>
      let myDiff := balDiff preBalances postBalances myIndex
      if myDiff < 0 then
        let r := maxIncreaseLoop myIndex accountKeys preBalances postBalances
          (List.range accountKeys.length) (MIN_SOL_CHANGE, "external")
        some ⟨myAddress, r.2⟩
      else
        let r := maxDecreaseLoop myIndex accountKeys preBalances postBalances
          (List.range accountKeys.length) (MIN_SOL_CHANGE, "external")
        some ⟨r.2, myAddress⟩

/-- The find predicate of extractTokenAddresses: a parsed spl-token transfer
or transferChecked instruction. -/
def isSplTransfer (ix : Instruction) : Bool :=
  (match ix.parsed with
   | some p => p.type = "transfer" || p.type = "transferChecked"
   | none => false) &&
    ix.program = some "spl-token"

/-- One lookup of resolveOwner in a balance list: the first entry whose
account index maps to the token-account address, provided it carries a truthy
owner. -/
def findOwnerIn (accountKeys : List String) (balances : List TokenBalance)
    (tokenAccountAddr : String) : Option String :=
  match balances.find?
      (fun b => accountKeys.get? b.accountIndex = some tokenAccountAddr) with
  | some b =>
    match b.owner with
    | some o => if o = "" then none else some o
    | none => none
  | none => none

/-- resolveOwner of extractTokenAddresses: try preTokenBalances first, then
postTokenBalances; a found entry with a falsy owner falls through. -/
def resolveOwner (accountKeys : List String)
    (preTokenBalances postTokenBalances : List TokenBalance)
    (tokenAccountAddr : String) : Option String :=
  match findOwnerIn accountKeys preTokenBalances tokenAccountAddr with
  | some o => some o
  | none => findOwnerIn accountKeys postTokenBalances tokenAccountAddr

/-- extractTokenAddresses (src/unnamed/part_008, lines 164-235). The
tokenAccountIndex parameter is unused, as in the source. The branch for a
found instruction without a parsed payload is unreachable because the find
predicate requires it. -/
def extractTokenAddresses (tx : ParsedTransactionWithMeta)
    (accountAddress : String) (tokenAccountIndex : Nat)
    (preTokenBalances postTokenBalances : List TokenBalance) :
    Option Addresses :=
  match (allInstructions tx).find? isSplTransfer with
  | none => some ⟨"external", "external"⟩
  | some ix =>
    match ix.parsed with
    | none => some ⟨"", ""⟩
    | some p =>
      let info := p.info
      let accountKeys := accountKeyStrings tx
      let sourceOwner :=
        resolveOwner accountKeys preTokenBalances postTokenBalances info.source
      let destOwner :=
        resolveOwner accountKeys preTokenBalances postTokenBalances
          info.destination
      let isSender :=
        sourceOwner = some accountAddress ||
          info.authority = some accountAddress
      if isSender then
        some ⟨accountAddress,
          jsOrOptStr destOwner (jsOrStr info.destination "external")⟩
      else
        some ⟨jsOrOptStr sourceOwner (jsOrStr info.source "external"),
          accountAddress⟩

/-- The Date built from tx.blockTime: blockTime ? new Date(blockTime * 1000)
: null, with 0 being falsy. -/
def jsTime (blockTime : Option Int) : Option Int :=
  match blockTime with
  | some t => if t = 0 then none else some (t * 1000)
  | none => none

/-- The pre-amount lookup of the token loop:
(pre?.uiTokenAmount.uiAmount || 0) where pre is the matching pre-balance. -/
def preUiAmount (preTokens : List TokenBalance) (post : TokenBalance) : ℚ :=
  match preTokens.find? (fun p => p.accountIndex = post.accountIndex) with
  | some p => p.uiAmount.getD 0
  | none => 0

/-- One iteration of the token loop of formatTransactions as an optional
event: none when the entry is skipped (owner mismatch or zero delta). -/
def tokenLegEvent? (accountAddress : String) (tx : ParsedTransactionWithMeta)
    (signature : String) (time : Option Int)
    (preTokens : List TokenBalance) (post : TokenBalance) :
    Option FormattedTransaction :=
  if post.owner ≠ some accountAddress then none
  else
    let diff : ℚ := post.uiAmount.getD 0 - preUiAmount preTokens post
    if diff = 0 then none
    else
      let addresses :=
        extractTokenAddresses tx accountAddress post.accountIndex preTokens
          ((tx.meta.map (fun m => (m.postTokenBalances).getD [])).getD [])
      let tokenSymbol := if post.mint = USDC_MINT then "USDC" else post.mint
      some
        { signature
          type := if 0 < diff then "received" else "sent"
          token := tokenSymbol
          amount := |diff|
          fromAddr := jsOrOptStr (addresses.map (fun a => a.fromAddr))
            (if 0 < diff then "external" else accountAddress)
          toAddr := jsOrOptStr (addresses.map (fun a => a.toAddr))
            (if 0 < diff then accountAddress else "external")
          time }

/-- Push an optional event onto the result array: the effect of one loop
iteration that either pushes or continues. -/
def pushEvent {β : Type} (result : List β) (e? : Option β) : List β :=
  match e? with
  | some e => result ++ [e]
  | none => result

/-- The token loop of formatTransactions (section 2, lines 285-310): a fold
over postTokenBalances pushing one event per qualifying entry. -/
def tokenLegEvents (accountAddress : String) (tx : ParsedTransactionWithMeta)
    (signature : String) (time : Option Int)
    (preTokens postTokens : List TokenBalance) : List FormattedTransaction :=
  postTokens.foldl
    (fun result post =>
      pushEvent result
        (tokenLegEvent? accountAddress tx signature time preTokens post))
    []

/-- The token-loop events of one transaction, with the arguments the main
loop computes before entering the token loop. -/
def tokenLegEventsOfTx (accountAddress : String)
    (tx : ParsedTransactionWithMeta) : List FormattedTransaction :=
  match tx.meta, tx.transaction with
  | some meta, some txn =>
    if meta.err then []
    else
      tokenLegEvents accountAddress tx (txn.signatures.headD "")
        (jsTime tx.blockTime) (meta.preTokenBalances.getD [])
        (meta.postTokenBalances.getD [])
  | _, _ => []

/-- The native-leg event pushed by section 1 of formatTransactions. -/
def solLegEvent (accountAddress : String) (signature : String)
    (time : Option Int) (diff : Int) (addresses : Option Addresses) :
    FormattedTransaction :=
  let diffSOL : ℚ := (diff : ℚ) / (LAMPORTS_PER_SOL : ℚ)
  { signature
    type := if 0 < diffSOL then "received" else "sent"
    token := "SOL"
    amount := |diffSOL|
    fromAddr := jsOrOptStr (addresses.map (fun a => a.fromAddr))
      (if 0 < diffSOL then "external" else accountAddress)
    toAddr := jsOrOptStr (addresses.map (fun a => a.toAddr))
      (if 0 < diffSOL then accountAddress else "external")
    time }

/-- The native-leg events (zero or one) a transaction contributes: section 1
of formatTransactions, without the effect of its continue statement on the
token loop. -/
def solLegEvents (accountAddress : String) (tx : ParsedTransactionWithMeta) :
    List FormattedTransaction :=
  match tx.meta, tx.transaction with
  | some meta, some txn =>
    if meta.err then []
    else
      match jsIndexOf txn.message.accountKeys accountAddress with
      | some myIndex =>
        let diff :=
          meta.postBalances.getD myIndex 0 - meta.preBalances.getD myIndex 0
        if MIN_SOL_CHANGE < |diff| then
          let addresses := extractSOLAddresses tx accountAddress
          if addresses.map (fun a => a.fromAddr)
              = addresses.map (fun a => a.toAddr) then []
          else
            [solLegEvent accountAddress (txn.signatures.headD "")
              (jsTime tx.blockTime) diff addresses]
        else []
      | none => []
  | _, _ => []

/-- Whether the continue statement of the native self-transfer check fires:
the native leg passed the dust filter but resolved with from equal to to, so
the source skips the remainder of the transaction including its token loop. -/
def solSelfTransferSkip (accountAddress : String)
    (tx : ParsedTransactionWithMeta) : Bool :=
  match tx.meta, tx.transaction with
  | some meta, some txn =>
    !meta.err &&
      match jsIndexOf txn.message.accountKeys accountAddress with
      | some myIndex =>
        let diff :=
          meta.postBalances.getD myIndex 0 - meta.preBalances.getD myIndex 0
        MIN_SOL_CHANGE < |diff| &&
          (let addresses := extractSOLAddresses tx accountAddress
           addresses.map (fun a => a.fromAddr)
             = addresses.map (fun a => a.toAddr))
      | none => false
  | _, _ => false

/-- The body of the main loop of formatTransactions for one transaction
(lines 247-311): skip on missing meta/body or a set error flag; the native
section with its dust filter and self-transfer continue (which aborts the
whole iteration); then the token loop. -/
def formatOneTx (accountAddress : String) (tx : ParsedTransactionWithMeta) :
    List FormattedTransaction :=
  match tx.meta, tx.transaction with
  | some meta, some txn =>
    if meta.err then []
    else
      let signature := txn.signatures.headD ""
      let time := jsTime tx.blockTime
      let preTokens := meta.preTokenBalances.getD []
      let postTokens := meta.postTokenBalances.getD []
      match jsIndexOf txn.message.accountKeys accountAddress with
      | some myIndex =>
        let pre := meta.preBalances.getD myIndex 0
        let post := meta.postBalances.getD myIndex 0
        let diff := post - pre
        if MIN_SOL_CHANGE < |diff| then
          let addresses := extractSOLAddresses tx accountAddress
          if addresses.map (fun a => a.fromAddr)
              = addresses.map (fun a => a.toAddr) then []
          else
            solLegEvent accountAddress signature time diff addresses ::
              tokenLegEvents accountAddress tx signature time preTokens
                postTokens
        else
          tokenLegEvents accountAddress tx signature time preTokens postTokens
      | none =>
        tokenLegEvents accountAddress tx signature time preTokens postTokens
  | _, _ => []

/-- formatTransactions (src/unnamed/part_008, lines 241-314): the result
array accumulated over the input transactions. -/
def formatTransactions (accountAddress : String)
    (transactions : List ParsedTransactionWithMeta) :
    List FormattedTransaction :=
  transactions.foldl (fun result tx => result ++ formatOneTx accountAddress tx)
    []

/-!
Date-bucketed grouping (src/src/utils/solana/transactionUtils.ts).

The environment-dependent pieces of the source are passed in as parameters:
today and yesterday are the local calendar components of new Date() and the
day before (yesterday is produced by setDate, with JavaScript month/year
rollover); nowDate is the calendar day substituted for a missing event time;
fmt models toLocaleDateString with the en-US long format; components models
the local-time decomposition of a millisecond timestamp into calendar parts.
An event time wrapped in a Date object is always truthy, so only a null time
falls back to nowDate.
-/

/-- Local calendar components of a JavaScript Date. -/
structure JsDate where
  year : Int
  month : Int
  day : Int
deriving DecidableEq, Repr

/-- Component-wise same-day comparison (getFullYear/getMonth/getDate). -/
def isSameDay (d1 d2 : JsDate) : Bool :=
  d1.year = d2.year && d1.month = d2.month && d1.day = d2.day

/-- One section of the SectionList data. -/
structure TransactionSection where
  title : String
  data : List FormattedTransaction
deriving DecidableEq, Repr

/-- The calendar day of one transaction: its time when present, otherwise the
current day (transaction.time || new Date()). -/
def txDate (components : Int → JsDate) (nowDate : JsDate)
    (t : FormattedTransaction) : JsDate :=
  match t.time with
  | some ms => components ms
  | none => nowDate

/-- The section title chosen for a calendar day. -/
def sectionTitle (today yesterday : JsDate) (fmt : JsDate → String)
    (date : JsDate) : String :=
  if isSameDay date today then "Today"
  else if isSameDay date yesterday then "Yesterday"
  else fmt date

/-- One step of the reduce: push the transaction onto the bucket of its title,
creating the bucket at the end when absent. String-keyed JavaScript objects
enumerate non-integer-like keys in insertion order, and every title produced
here is non-integer-like, so an association list in insertion order is an
exact model of the accumulator object. -/
def insertGrouped (acc : List (String × List FormattedTransaction))
    (title : String) (t : FormattedTransaction) :
    List (String × List FormattedTransaction) :=
  if acc.any (fun p => p.1 = title) then
    acc.map (fun p => if p.1 = title then (p.1, p.2 ++ [t]) else p)
  else acc ++ [(title, [t])]

/-- The label a transaction is bucketed under: the section title of its
calendar day. -/
def txLabel (today yesterday nowDate : JsDate) (fmt : JsDate → String)
    (components : Int → JsDate) (t : FormattedTransaction) : String :=
  sectionTitle today yesterday fmt (txDate components nowDate t)

/-- groupTransactionsByDate (src/src/utils/solana/transactionUtils.ts,
lines 16-61). -/
def groupTransactionsByDate (today yesterday nowDate : JsDate)
    (fmt : JsDate → String) (components : Int → JsDate)
    (transactions : List FormattedTransaction) : List TransactionSection :=
  if transactions = [] then []
  else
    let grouped := transactions.foldl
      (fun acc t =>
        insertGrouped acc (txLabel today yesterday nowDate fmt components t) t)
      []
    grouped.map (fun p => ⟨p.1, p.2⟩)

/-- First-seen-order deduplication of a label list: the order in which labels
are first encountered while scanning the input. This is the specification-side
characterization of the section-title order. -/
def firstSeenTitles (l : List String) : List String :=
  l.foldl (fun acc x => if x ∈ acc then acc else acc ++ [x]) []

/-!
Pagination state of the transaction history screen
(src/screens/TransactionsHistoryScreen.tsx). React state setters of one
handler are batched; the record updates below apply them in program order,
which produces the same final state (last write per field wins, and the
functional setTransactions update reads the accumulated list). The history
fetcher (SolanaService.getTransactionsHistory) is passed in as a function of
the pagination cursor; it returns none exactly when the source returns null,
which the screen turns into the caught error path.
-/

/-- The screen state components touched by the pagination logic. -/
structure ScreenState where
  transactions : List FormattedTransaction
  loading : Bool
  loadingMore : Bool
  error : Option String
  lastSignature : Option String
  hasMore : Bool
deriving DecidableEq, Repr

/-- The cursor argument passed to the history fetcher:
reset ? undefined : lastSignature. -/
def fetchCursor (reset : Bool) (s : ScreenState) : Option String :=
  if reset then none else s.lastSignature

/-- fetchTransactions (TransactionsHistoryScreen.tsx, lines 50-86). On
reset the loading flag, cursor and hasMore are reinitialized before the fetch;
a null fetch result throws, reaching the catch block which records the error;
the finally block clears the loading flag on every path. -/
def fetchTransactions
    (fetcher : Option String → Option (List FormattedTransaction))
    (reset : Bool) (s : ScreenState) : ScreenState :=
  let s1 :=
    if reset then
      { s with loading := true, lastSignature := none, hasMore := true }
    else s
  let s2 := { s1 with error := none }
  match fetcher (fetchCursor reset s) with
  | none =>
    { s2 with error := some "Error loading transactions", loading := false }
  | some data =>
    let s3 :=
      if reset then { s2 with transactions := data }
      else { s2 with transactions := s2.transactions ++ data }
    let s4 :=
      if 0 < data.length then
        { s3 with lastSignature := data.getLast?.map (fun e => e.signature) }
      else s3
    let s5 := if data.length = 0 then { s4 with hasMore := false } else s4
    { s5 with loading := false }

/-- loadMore (TransactionsHistoryScreen.tsx, lines 115-120): suppressed while
a load is in flight or when hasMore is false. -/
def loadMore (fetcher : Option String → Option (List FormattedTransaction))
    (s : ScreenState) : ScreenState :=
  if s.loadingMore || !s.hasMore then s
  else
    let s1 := { s with loadingMore := true }
    let s2 := fetchTransactions fetcher false s1
    { s2 with loadingMore := false }

/-!
Concrete transactions and states used to instantiate or refute the claims.
-/

/-- A transaction with a token balance increase for an account owned by
Alice and no transfer instruction at all: the token counterparty resolution
falls back to the pair (external, external). -/
def txTokenNoIx : ParsedTransactionWithMeta :=
  { transaction := some
      { signatures := ["sig1"]
        message := { accountKeys := ["Alice", "TA1"], instructions := [] } }
    meta := some
      { err := false
        preBalances := [0, 0]
        postBalances := [0, 0]
        innerInstructions := none
        preTokenBalances := some []
        postTokenBalances := some
          [{ accountIndex := 1, owner := some "Alice", mint := "MintX",
             uiAmount := some 5 }] }
    blockTime := some 1700000000 }

/-- An spl-token transfer between two token accounts both owned by Alice. -/
def ixTokenSelf : Instruction :=
  { program := some "spl-token"
    parsed := some
      { type := "transfer"
        info := { source := "TA1", destination := "TA2",
                  authority := some "Alice" } } }

/-- A token self-transfer: Alice moves 2 units between her own token
accounts; both balance entries are owned by her. -/
def txTokenSelf : ParsedTransactionWithMeta :=
  { transaction := some
      { signatures := ["sig2"]
        message := { accountKeys := ["Alice", "TA1", "TA2"]
                     instructions := [ixTokenSelf] } }
    meta := some
      { err := false
        preBalances := [0, 0, 0]
        postBalances := [0, 0, 0]
        innerInstructions := none
        preTokenBalances := some
          [{ accountIndex := 1, owner := some "Alice", mint := "MintX",
             uiAmount := some 5 },
           { accountIndex := 2, owner := some "Alice", mint := "MintX",
             uiAmount := some 0 }]
        postTokenBalances := some
          [{ accountIndex := 1, owner := some "Alice", mint := "MintX",
             uiAmount := some 3 },
           { accountIndex := 2, owner := some "Alice", mint := "MintX",
             uiAmount := some 2 }] }
    blockTime := some 1700000000 }

/-- A parsed system transfer from Alice to Alice. -/
def ixSolSelf : Instruction :=
  { program := some "system"
    parsed := some
      { type := "transfer"
        info := { source := "Alice", destination := "Alice",
                  authority := none } } }

/-- A transaction whose native leg resolves as a self-transfer (above the
dust threshold) and which also carries a non-zero token leg owned by Alice. -/
def txSelfPlusToken : ParsedTransactionWithMeta :=
  { transaction := some
      { signatures := ["sig3"]
        message := { accountKeys := ["Alice", "Bob"]
                     instructions := [ixSolSelf] } }
    meta := some
      { err := false
        preBalances := [100000, 0]
        postBalances := [50000, 50000]
        innerInstructions := none
        preTokenBalances := some []
        postTokenBalances := some
          [{ accountIndex := 1, owner := some "Alice", mint := "MintX",
             uiAmount := some 7 }] }
    blockTime := some 1700000000 }

/-- A transaction with no instructions where A pays out 20000 lamports and
B and C each gain 10000: the fallback scan meets a tie. -/
def txFallbackTie : ParsedTransactionWithMeta :=
  { transaction := some
      { signatures := ["sig7"]
        message := { accountKeys := ["A", "B", "C"], instructions := [] } }
    meta := some
      { err := false
        preBalances := [100000, 0, 0]
        postBalances := [80000, 10000, 10000]
        innerInstructions := none
        preTokenBalances := none
        postTokenBalances := none }
    blockTime := none }

/-- A parsed system transfer from Alice to Bob. -/
def ixSolSend : Instruction :=
  { program := some "system"
    parsed := some
      { type := "transfer"
        info := { source := "Alice", destination := "Bob",
                  authority := none } }  }

/-- A plain native send of 60000 lamports from Alice to Bob. -/
def txSolSend : ParsedTransactionWithMeta :=
  { transaction := some
      { signatures := ["sig4"]
        message := { accountKeys := ["Alice", "Bob"]
                     instructions := [ixSolSend] } }
    meta := some
      { err := false
        preBalances := [100000, 0]
        postBalances := [40000, 50000]
        innerInstructions := none
        preTokenBalances := none
        postTokenBalances := none }
    blockTime := some 1700000000 }

/-- The native-leg event that txSolSend produces for Alice. -/
def evSolSend : FormattedTransaction :=
  { signature := "sig4", type := "sent", token := "SOL",
    amount := 3 / 50000, fromAddr := "Alice", toAddr := "Bob",
    time := some 1700000000000 }

/-- A transaction whose error flag is set, used to instantiate the skip
rule. It carries balance arrays that would otherwise produce events. -/
def txErrFlag : ParsedTransactionWithMeta :=
  { transaction := some
      { signatures := ["sigE"]
        message := { accountKeys := ["Alice", "Bob"], instructions := [] } }
    meta := some
      { err := true
        preBalances := [100000, 0]
        postBalances := [0, 100000]
        innerInstructions := none
        preTokenBalances := some []
        postTokenBalances := some
          [{ accountIndex := 1, owner := some "Alice", mint := "MintX",
             uiAmount := some 9 }] }
    blockTime := some 1700000000 }

/-- A sample formatted event used in pagination states. -/
def sampleEvent : FormattedTransaction :=
  { signature := "a", type := "sent", token := "SOL", amount := 1,
    fromAddr := "A", toAddr := "B", time := none }

/-- A second sample formatted event, as a fetched page. -/
def sampleEvent2 : FormattedTransaction :=
  { signature := "b", type := "received", token := "SOL", amount := 2,
    fromAddr := "C", toAddr := "A", time := none }

/-- A pagination state with one accumulated event and a set cursor. -/
def sampleState : ScreenState :=
  { transactions := [sampleEvent], loading := false, loadingMore := false,
    error := none, lastSignature := some "a", hasMore := true }

/-- A history fetcher that always fails. -/
def failingFetcher : Option String → Option (List FormattedTransaction) :=
  fun _ => none

/-- A history fetcher that answers the page after cursor a with one event and
fails elsewhere. -/
def pageFetcher : Option String → Option (List FormattedTransaction) :=
  fun c => if c = some "a" then some [sampleEvent2] else none

/-!
Theorems.

Shared structural lemmas about the folds of the formatter.
-/

/-- Folding an append of f x over a list from any accumulator produces the
accumulator followed by the flattened mapped list. -/
theorem foldl_push_eq_flatten {α β : Type} (f : α → List β) :
    ∀ (l : List α) (acc : List β),
      l.foldl (fun r x => r ++ f x) acc = acc ++ (l.map f).flatten
  | [], acc => by simp
  | x :: l, acc => by
    rw [List.foldl_cons, foldl_push_eq_flatten f l (acc ++ f x)]
    simp

/-- Folding an optional push over a list from any accumulator produces the
accumulator followed by the filterMap of the list. -/
theorem foldl_pushOpt_eq_filterMap {α β : Type} (f : α → Option β) :
    ∀ (l : List α) (acc : List β),
      l.foldl (fun r x => pushEvent r (f x)) acc = acc ++ l.filterMap f
  | [], acc => by simp
  | x :: l, acc => by
    cases h : f x with
    | none =>
      have hstep : pushEvent acc (f x) = acc := by
        simp [h, pushEvent]
      rw [List.foldl_cons, hstep, foldl_pushOpt_eq_filterMap f l acc]
      simp [List.filterMap_cons, h]
    | some e =>
      have hstep : pushEvent acc (f x) = acc ++ [e] := by
        simp [h, pushEvent]
      rw [List.foldl_cons, hstep, foldl_pushOpt_eq_filterMap f l (acc ++ [e])]
      simp [List.filterMap_cons, h]

/-- formatTransactions is the concatenation, in input order, of the event
lists of the individual transactions. -/
theorem formatTransactions_eq_flatten (accountAddress : String)
    (transactions : List ParsedTransactionWithMeta) :
    formatTransactions accountAddress transactions =
      (transactions.map (formatOneTx accountAddress)).flatten := by
  rw [formatTransactions, foldl_push_eq_flatten]
  simp

/-- The token loop is the filterMap of its per-entry optional event over
postTokenBalances, in list order. -/
theorem tokenLegEvents_eq_filterMap (accountAddress : String)
    (tx : ParsedTransactionWithMeta) (signature : String) (time : Option Int)
    (preTokens postTokens : List TokenBalance) :
    tokenLegEvents accountAddress tx signature time preTokens postTokens =
      postTokens.filterMap
        (tokenLegEvent? accountAddress tx signature time preTokens) := by
  rw [tokenLegEvents, foldl_pushOpt_eq_filterMap]
  simp

/-- The per-transaction events decompose into the native leg followed by the
token legs, except that a native self-transfer resolution above the dust
threshold skips the whole transaction. -/
theorem formatOneTx_decomp (accountAddress : String)
    (tx : ParsedTransactionWithMeta) :
    formatOneTx accountAddress tx =
      if solSelfTransferSkip accountAddress tx then []
      else
        solLegEvents accountAddress tx ++
          tokenLegEventsOfTx accountAddress tx := by
  rcases tx with ⟨txn?, meta?, bt⟩
  rcases meta? with _ | meta <;> rcases txn? with _ | txn <;>
    simp only [formatOneTx, solSelfTransferSkip, solLegEvents,
      tokenLegEventsOfTx, if_neg, Bool.false_eq_true, ite_false]
  case none.none => simp
  case none.some => simp
  case some.none => simp
  case some.some =>
    cases herr : meta.err with
    | true => simp
    | false =>
      simp only [Bool.not_false, Bool.true_and, if_false, Bool.false_eq_true]
      cases hidx : jsIndexOf txn.message.accountKeys accountAddress with
      | none => simp
      | some myIndex =>
        by_cases hdust :
            MIN_SOL_CHANGE <
              |meta.postBalances.getD myIndex 0 -
                meta.preBalances.getD myIndex 0| <;>
          simp only [hdust, if_true, if_false, ite_true, ite_false,
            Bool.true_and, Bool.false_and]
        · by_cases hself :
              (extractSOLAddresses ⟨some txn, some meta, bt⟩
                    accountAddress).map (fun a => a.fromAddr) =
                (extractSOLAddresses ⟨some txn, some meta, bt⟩
                    accountAddress).map (fun a => a.toAddr) <;>
            simp [hself]
        · simp

/-- Inversion for membership in the native-leg events: an emitted native
event forces all the guards of section 1 and determines the event. -/
theorem mem_solLegEvents (accountAddress : String)
    (tx : ParsedTransactionWithMeta) (e : FormattedTransaction)
    (he : e ∈ solLegEvents accountAddress tx) :
    ∃ meta txn myIndex,
      tx.meta = some meta ∧ tx.transaction = some txn ∧ meta.err = false ∧
        jsIndexOf txn.message.accountKeys accountAddress = some myIndex ∧
        MIN_SOL_CHANGE <
          |meta.postBalances.getD myIndex 0 -
            meta.preBalances.getD myIndex 0| ∧
        (extractSOLAddresses tx accountAddress).map (fun a => a.fromAddr) ≠
          (extractSOLAddresses tx accountAddress).map (fun a => a.toAddr) ∧
        e = solLegEvent accountAddress (txn.signatures.headD "")
          (jsTime tx.blockTime)
          (meta.postBalances.getD myIndex 0 - meta.preBalances.getD myIndex 0)
          (extractSOLAddresses tx accountAddress) := by
  rcases tx with ⟨txn?, meta?, bt⟩
  rcases meta? with _ | meta <;> rcases txn? with _ | txn <;>
    simp only [solLegEvents] at he
  · simp at he
  · simp at he
  · simp at he
  · cases herr : meta.err with
    | true => rw [herr] at he; simp at he
    | false =>
      rw [herr] at he
      simp only [if_false, Bool.false_eq_true] at he
      cases hidx : jsIndexOf txn.message.accountKeys accountAddress with
      | none => rw [hidx] at he; simp at he
      | some myIndex =>
        rw [hidx] at he
        dsimp only at he
        by_cases hdust : MIN_SOL_CHANGE <
            |meta.postBalances.getD myIndex 0 -
              meta.preBalances.getD myIndex 0|
        · rw [if_pos hdust] at he
          by_cases hguard :
              (extractSOLAddresses ⟨some txn, some meta, bt⟩
                    accountAddress).map (fun a => a.fromAddr) =
                (extractSOLAddresses ⟨some txn, some meta, bt⟩
                    accountAddress).map (fun a => a.toAddr)
          · rw [if_pos hguard] at he; simp at he
          · rw [if_neg hguard] at he
            rw [List.mem_singleton] at he
            exact ⟨meta, txn, myIndex, rfl, rfl, herr, hidx, hdust, hguard, he⟩
        · rw [if_neg hdust] at he; simp at he

/-- Inversion for the whole-transaction skip caused by the native
self-transfer continue. -/
theorem solSelfTransferSkip_inv (accountAddress : String)
    (tx : ParsedTransactionWithMeta)
    (h : solSelfTransferSkip accountAddress tx = true) :
    ∃ meta txn myIndex,
      tx.meta = some meta ∧ tx.transaction = some txn ∧ meta.err = false ∧
        jsIndexOf txn.message.accountKeys accountAddress = some myIndex ∧
        MIN_SOL_CHANGE <
          |meta.postBalances.getD myIndex 0 -
            meta.preBalances.getD myIndex 0| ∧
        (extractSOLAddresses tx accountAddress).map (fun a => a.fromAddr) =
          (extractSOLAddresses tx accountAddress).map (fun a => a.toAddr) := by
  rcases tx with ⟨txn?, meta?, bt⟩
  rcases meta? with _ | meta <;> rcases txn? with _ | txn <;>
    simp only [solSelfTransferSkip] at h
  · simp at h
  · simp at h
  · simp at h
  · cases herr : meta.err with
    | true => rw [herr] at h; simp at h
    | false =>
      rw [herr] at h
      simp only [Bool.not_false, Bool.true_and] at h
      cases hidx : jsIndexOf txn.message.accountKeys accountAddress with
      | none => rw [hidx] at h; simp at h
      | some myIndex =>
        rw [hidx] at h
        dsimp only at h
        rw [Bool.and_eq_true, decide_eq_true_eq, decide_eq_true_eq] at h
        exact ⟨meta, txn, myIndex, rfl, rfl, herr, hidx, h.1, h.2⟩

/-- The native section contributes at most one event. -/
theorem solLegEvents_length_le_one (accountAddress : String)
    (tx : ParsedTransactionWithMeta) :
    (solLegEvents accountAddress tx).length ≤ 1 := by
  rcases tx with ⟨txn?, meta?, bt⟩
  rcases meta? with _ | meta <;> rcases txn? with _ | txn <;>
    simp only [solLegEvents]
  · simp
  · simp
  · simp
  · split
    · simp
    · split
      · split
        · split <;> simp
        · simp
      · simp

/-- C10: the output of formatTransactions is the concatenation, in input-list
order, of the per-transaction event lists; a transaction contributes either
nothing or its native-leg events (at most one) followed by its token-leg
events; and the token-leg events are obtained from the post-token-balance
list in list order. -/
theorem C10_output_order :
    (∀ (accountAddress : String)
        (transactions : List ParsedTransactionWithMeta),
      formatTransactions accountAddress transactions =
        (transactions.map (formatOneTx accountAddress)).flatten) ∧
      (∀ (accountAddress : String) (tx : ParsedTransactionWithMeta),
        (formatOneTx accountAddress tx = [] ∨
          formatOneTx accountAddress tx =
            solLegEvents accountAddress tx ++
              tokenLegEventsOfTx accountAddress tx) ∧
          (solLegEvents accountAddress tx).length ≤ 1) ∧
      ∀ (accountAddress : String) (tx : ParsedTransactionWithMeta)
        (signature : String) (time : Option Int)
        (preTokens postTokens : List TokenBalance),
        tokenLegEvents accountAddress tx signature time preTokens postTokens =
          postTokens.filterMap
            (tokenLegEvent? accountAddress tx signature time preTokens) := by
  refine ⟨formatTransactions_eq_flatten, fun a tx => ⟨?_, solLegEvents_length_le_one a tx⟩,
    tokenLegEvents_eq_filterMap⟩
  rw [formatOneTx_decomp]
  by_cases h : solSelfTransferSkip a tx = true
  · rw [if_pos h]; exact Or.inl rfl
  · rw [if_neg h]; exact Or.inr rfl

/-- C9: a transaction with a set error flag, or with a missing meta or a
missing transaction body, contributes zero events to formatTransactions,
whatever balance arrays it carries. -/
theorem C9_failed_tx_skipped (accountAddress : String)
    (tx : ParsedTransactionWithMeta)
    (h : tx.meta = none ∨ tx.transaction = none ∨
      ∃ m, tx.meta = some m ∧ m.err = true) :
    formatOneTx accountAddress tx = [] ∧
      ∀ l1 l2, formatTransactions accountAddress (l1 ++ tx :: l2) =
        formatTransactions accountAddress (l1 ++ l2) := by
  have h0 : formatOneTx accountAddress tx = [] := by
    rcases tx with ⟨txn?, meta?, bt⟩
    rcases h with h | h | ⟨m, hm, herr⟩
    · simp only at h
      subst h
      rcases txn? with _ | t <;> simp [formatOneTx]
    · simp only at h
      subst h
      rcases meta? with _ | m <;> simp [formatOneTx]
    · simp only at hm
      subst hm
      rcases txn? with _ | t <;> simp [formatOneTx, herr]
  refine ⟨h0, fun l1 l2 => ?_⟩
  rw [formatTransactions_eq_flatten, formatTransactions_eq_flatten]
  simp [h0]

/-- C9 witness: the error-flagged transaction txErrFlag contributes nothing,
and removing it from a batch does not change the output. -/
theorem C9_failed_tx_skipped_witness :
    formatOneTx "Alice" txErrFlag = [] ∧
      formatTransactions "Alice" ([txTokenNoIx] ++ txErrFlag :: []) =
        formatTransactions "Alice" ([txTokenNoIx] ++ []) :=
  ⟨(C9_failed_tx_skipped "Alice" txErrFlag
      (Or.inr (Or.inr ⟨_, rfl, rfl⟩))).1,
    (C9_failed_tx_skipped "Alice" txErrFlag
      (Or.inr (Or.inr ⟨_, rfl, rfl⟩))).2 [txTokenNoIx] []⟩

/-- C6: when the tracked address is present in the account keys and its
native balance delta is at most the dust threshold in absolute value, the
transaction contributes no native-leg event: its events are exactly its
token-leg events. -/
theorem C6_dust_filter (accountAddress : String)
    (tx : ParsedTransactionWithMeta) (meta : TxMeta) (txn : Transaction)
    (myIndex : Nat)
    (hmeta : tx.meta = some meta) (htxn : tx.transaction = some txn)
    (hidx : jsIndexOf txn.message.accountKeys accountAddress = some myIndex)
    (hdust : |meta.postBalances.getD myIndex 0 -
      meta.preBalances.getD myIndex 0| ≤ MIN_SOL_CHANGE) :
    solLegEvents accountAddress tx = [] ∧
      formatOneTx accountAddress tx = tokenLegEventsOfTx accountAddress tx := by
  have hnil : solLegEvents accountAddress tx = [] := by
    rw [List.eq_nil_iff_forall_not_mem]
    intro e he
    obtain ⟨meta2, txn2, myIndex2, hmeta2, htxn2, _, hidx2, hdust2, _, _⟩ :=
      mem_solLegEvents accountAddress tx e he
    rw [hmeta] at hmeta2
    rw [htxn] at htxn2
    injection hmeta2 with hmeta2
    injection htxn2 with htxn2
    subst hmeta2
    subst htxn2
    rw [hidx] at hidx2
    injection hidx2 with hidx2
    subst hidx2
    exact absurd hdust2 (not_lt.mpr hdust)
  have hskip : solSelfTransferSkip accountAddress tx = false := by
    by_contra hcon
    rw [Bool.not_eq_false] at hcon
    obtain ⟨meta2, txn2, myIndex2, hmeta2, htxn2, _, hidx2, hdust2, _⟩ :=
      solSelfTransferSkip_inv accountAddress tx hcon
    rw [hmeta] at hmeta2
    rw [htxn] at htxn2
    injection hmeta2 with hmeta2
    injection htxn2 with htxn2
    subst hmeta2
    subst htxn2
    rw [hidx] at hidx2
    injection hidx2 with hidx2
    subst hidx2
    exact absurd hdust2 (not_lt.mpr hdust)
  refine ⟨hnil, ?_⟩
  rw [formatOneTx_decomp, hskip]
  simp [hnil]

/-- C6 witness: in txTokenNoIx the tracked native delta is 0, so only the
token leg is emitted. -/
theorem C6_dust_filter_witness :
    solLegEvents "Alice" txTokenNoIx = [] ∧
      formatOneTx "Alice" txTokenNoIx = tokenLegEventsOfTx "Alice" txTokenNoIx :=
  C6_dust_filter "Alice" txTokenNoIx _ _ 0 rfl rfl (by decide) (by decide)

/-- C5: under the reachable pagination flows (a reset call, or a loadMore
call which requires hasMore), a successful fetchTransactions call leaves
hasMore false exactly when the fetched page is empty; and when hasMore is
false, loadMore is a no-op that changes nothing, the accumulated list and
cursor included. -/
theorem C5_hasMore_iff_empty_page
    (fetcher : Option String → Option (List FormattedTransaction))
    (reset : Bool) (s : ScreenState) (data : List FormattedTransaction)
    (hsucc : fetcher (fetchCursor reset s) = some data)
    (hflow : reset = true ∨ s.hasMore = true) :
    ((fetchTransactions fetcher reset s).hasMore = false ↔ data = []) ∧
      ∀ (fetcher2 : Option String → Option (List FormattedTransaction))
        (s2 : ScreenState), s2.hasMore = false → loadMore fetcher2 s2 = s2 := by
  constructor
  · cases reset with
    | true =>
      cases data with
      | nil => simp [fetchTransactions, hsucc]
      | cons e rest => simp [fetchTransactions, hsucc]
    | false =>
      have hs : s.hasMore = true := by
        rcases hflow with h | h
        · exact absurd h (by simp)
        · exact h
      cases data with
      | nil => simp [fetchTransactions, hsucc]
      | cons e rest => simp [fetchTransactions, hsucc, hs]
  · intro fetcher2 s2 h2
    simp [loadMore, h2]

/-- C5 witness: a loadMore-style successful fetch of one event from
sampleState keeps hasMore true (the page is not empty), and loadMore is a
no-op once hasMore is false. -/
theorem C5_hasMore_iff_empty_page_witness :
    ((fetchTransactions pageFetcher false sampleState).hasMore = false ↔
        [sampleEvent2] = []) ∧
      ∀ (fetcher2 : Option String → Option (List FormattedTransaction))
        (s2 : ScreenState), s2.hasMore = false → loadMore fetcher2 s2 = s2 :=
  C5_hasMore_iff_empty_page pageFetcher false sampleState [sampleEvent2] rfl
    (Or.inr rfl)

/-- C4 as amended: when a fetchTransactions call with reset false fails, the
accumulated event list, the cursor and hasMore are unchanged; a retry with
reset false queries the fetcher at exactly the pre-failure cursor and appends
the returned page, so the accumulated list keeps every prior event and, for a
page disjoint from it, gains no duplicates. -/
theorem C4_failure_preserves_state
    (fetcher fetcher2 : Option String → Option (List FormattedTransaction))
    (s : ScreenState) (data : List FormattedTransaction)
    (hfail : fetcher s.lastSignature = none)
    (hretry : fetcher2 s.lastSignature = some data) :
    (fetchTransactions fetcher false s).transactions = s.transactions ∧
      (fetchTransactions fetcher false s).lastSignature = s.lastSignature ∧
      (fetchTransactions fetcher false s).hasMore = s.hasMore ∧
      fetchCursor false (fetchTransactions fetcher false s) =
        fetchCursor false s ∧
      (fetchTransactions fetcher2 false
          (fetchTransactions fetcher false s)).transactions =
        s.transactions ++ data ∧
      (s.transactions.Nodup → data.Nodup →
        (∀ e ∈ data, e ∉ s.transactions) →
        (fetchTransactions fetcher2 false
            (fetchTransactions fetcher false s)).transactions.Nodup) := by
  have h1 : fetchTransactions fetcher false s =
      { s with error := some "Error loading transactions", loading := false } := by
    simp [fetchTransactions, fetchCursor, hfail]
  have h2 : (fetchTransactions fetcher2 false
      (fetchTransactions fetcher false s)).transactions =
        s.transactions ++ data := by
    rw [h1]
    cases data with
    | nil => simp [fetchTransactions, fetchCursor, hretry]
    | cons e rest => simp [fetchTransactions, fetchCursor, hretry]
  refine ⟨by rw [h1], by rw [h1], by rw [h1], by rw [h1]; rfl, h2, ?_⟩
  intro hn1 hn2 hdisj
  rw [h2]
  rw [List.nodup_append]
  refine ⟨hn1, hn2, ?_⟩
  intro a ha1 ha2
  exact hdisj a ha2 ha1

/-- C4 witness: from sampleState, a failing non-reset fetch preserves the
state, and the retry through pageFetcher appends the new page without
duplicating the accumulated event. -/
theorem C4_failure_preserves_state_witness :
    (fetchTransactions failingFetcher false sampleState).transactions =
        sampleState.transactions ∧
      (fetchTransactions failingFetcher false sampleState).lastSignature =
        sampleState.lastSignature ∧
      (fetchTransactions failingFetcher false sampleState).hasMore =
        sampleState.hasMore ∧
      fetchCursor false (fetchTransactions failingFetcher false sampleState) =
        fetchCursor false sampleState ∧
      (fetchTransactions pageFetcher false
          (fetchTransactions failingFetcher false sampleState)).transactions =
        sampleState.transactions ++ [sampleEvent2] ∧
      (sampleState.transactions.Nodup → [sampleEvent2].Nodup →
        (∀ e ∈ [sampleEvent2], e ∉ sampleState.transactions) →
        (fetchTransactions pageFetcher false
            (fetchTransactions failingFetcher false sampleState)).transactions.Nodup) :=
  C4_failure_preserves_state failingFetcher pageFetcher sampleState
    [sampleEvent2] rfl rfl

/-- C2 as amended: the self-transfer elimination holds for the native leg
only. Whenever the native counterparty resolution yields identical from and
to, the transaction contributes no native-leg event (its contribution is
empty or exactly its token-leg events); token-leg resolutions with identical
from and to are still emitted, as C2_counterexample shows. -/
theorem C2_native_self_transfer_dropped (accountAddress : String)
    (tx : ParsedTransactionWithMeta) (a : Addresses)
    (hres : extractSOLAddresses tx accountAddress = some a)
    (hself : a.fromAddr = a.toAddr) :
    solLegEvents accountAddress tx = [] ∧
      (formatOneTx accountAddress tx = [] ∨
        formatOneTx accountAddress tx = tokenLegEventsOfTx accountAddress tx) := by
  have h0 : solLegEvents accountAddress tx = [] := by
    rw [List.eq_nil_iff_forall_not_mem]
    intro e he
    obtain ⟨_, _, _, _, _, _, _, _, hguard, _⟩ :=
      mem_solLegEvents accountAddress tx e he
    rw [hres] at hguard
    simp [hself] at hguard
  refine ⟨h0, ?_⟩
  rw [formatOneTx_decomp]
  by_cases h : solSelfTransferSkip accountAddress tx = true
  · rw [if_pos h]; exact Or.inl rfl
  · rw [if_neg h, h0]; exact Or.inr rfl

/-- C2 amended witness: the native resolution of txSelfPlusToken is the pair
(Alice, Alice), and the transaction contributes no native-leg event. -/
theorem C2_native_self_transfer_dropped_witness :
    solLegEvents "Alice" txSelfPlusToken = [] ∧
      (formatOneTx "Alice" txSelfPlusToken = [] ∨
        formatOneTx "Alice" txSelfPlusToken =
          tokenLegEventsOfTx "Alice" txSelfPlusToken) :=
  C2_native_self_transfer_dropped "Alice" txSelfPlusToken
    ⟨"Alice", "Alice"⟩ rfl rfl

/-- The sign of the SOL-scaled delta agrees with the sign of the lamport
delta. -/
theorem diffSOL_pos_iff (diff : Int) :
    (0 < (diff : ℚ) / (LAMPORTS_PER_SOL : ℚ)) ↔ 0 < diff := by
  rw [div_pos_iff]
  constructor
  · rintro (⟨h, _⟩ | ⟨_, h⟩)
    · exact_mod_cast h
    · norm_num [LAMPORTS_PER_SOL] at h
  · intro h
    exact Or.inl ⟨by exact_mod_cast h, by norm_num [LAMPORTS_PER_SOL]⟩

/-- extractSOLAddresses in the instruction branch: a found system transfer is
returned verbatim. -/
theorem extractSOLAddresses_found (tx : ParsedTransactionWithMeta)
    (myAddress : String) (ix : Instruction) (p : IxParsed)
    (hfind : (allInstructions tx).find? (isMySystemTransfer myAddress)
      = some ix)
    (hparsed : ix.parsed = some p) :
    extractSOLAddresses tx myAddress =
      some ⟨p.info.source, p.info.destination⟩ := by
  unfold extractSOLAddresses
  rw [hfind]
  dsimp only
  rw [hparsed]

/-- extractSOLAddresses in the SENT fallback branch. -/
theorem extractSOLAddresses_fallback_neg (tx : ParsedTransactionWithMeta)
    (myAddress : String) (myIndex : Nat)
    (hfind : (allInstructions tx).find? (isMySystemTransfer myAddress) = none)
    (hidx : jsIndexOf (accountKeyStrings tx) myAddress = some myIndex)
    (hneg : balDiff ((tx.meta.map (fun m => m.preBalances)).getD [])
      ((tx.meta.map (fun m => m.postBalances)).getD []) myIndex < 0) :
    extractSOLAddresses tx myAddress =
      some ⟨myAddress,
        (maxIncreaseLoop myIndex (accountKeyStrings tx)
          ((tx.meta.map (fun m => m.preBalances)).getD [])
          ((tx.meta.map (fun m => m.postBalances)).getD [])
          (List.range (accountKeyStrings tx).length)
          (MIN_SOL_CHANGE, "external")).2⟩ := by
  unfold extractSOLAddresses
  rw [hfind]
  dsimp only
  rw [hidx]
  dsimp only
  rw [if_pos hneg]

/-- extractSOLAddresses in the RECEIVED fallback branch. -/
theorem extractSOLAddresses_fallback_nonneg (tx : ParsedTransactionWithMeta)
    (myAddress : String) (myIndex : Nat)
    (hfind : (allInstructions tx).find? (isMySystemTransfer myAddress) = none)
    (hidx : jsIndexOf (accountKeyStrings tx) myAddress = some myIndex)
    (hnn : ¬ balDiff ((tx.meta.map (fun m => m.preBalances)).getD [])
      ((tx.meta.map (fun m => m.postBalances)).getD []) myIndex < 0) :
    extractSOLAddresses tx myAddress =
      some ⟨(maxDecreaseLoop myIndex (accountKeyStrings tx)
          ((tx.meta.map (fun m => m.preBalances)).getD [])
          ((tx.meta.map (fun m => m.postBalances)).getD [])
          (List.range (accountKeyStrings tx).length)
          (MIN_SOL_CHANGE, "external")).2, myAddress⟩ := by
  unfold extractSOLAddresses
  rw [hfind]
  dsimp only
  rw [hidx]
  dsimp only
  rw [if_neg hnn]

/-- C1 as amended: the directional invariant holds for the native-leg events.
For a tracked address that is neither empty nor the external sentinel, and
instructions whose parsed payloads carry non-empty source and destination,
every emitted native-leg event has exactly one of from and to equal to the
tracked address. Token-leg events can violate the invariant in both
directions, as C1_counterexample shows. -/
theorem C1_native_exactly_one (accountAddress : String)
    (tx : ParsedTransactionWithMeta)
    (haddr1 : accountAddress ≠ "")
    (haddr2 : accountAddress ≠ "external")
    (hix : ∀ ix ∈ allInstructions tx, ∀ p, ix.parsed = some p →
      p.info.source ≠ "" ∧ p.info.destination ≠ "") :
    ∀ e ∈ solLegEvents accountAddress tx,
      (e.fromAddr = accountAddress ∧ e.toAddr ≠ accountAddress) ∨
        (e.fromAddr ≠ accountAddress ∧ e.toAddr = accountAddress) := by
  intro e he
  obtain ⟨meta, txn, myIndex, hmeta, htxn, herr, hidx, hdust, hguard, hev⟩ :=
    mem_solLegEvents accountAddress tx e he
  have hkeys : accountKeyStrings tx = txn.message.accountKeys := by
    unfold accountKeyStrings
    rw [htxn]
  have hpre : (tx.meta.map (fun m => m.preBalances)).getD []
      = meta.preBalances := by
    rw [hmeta]
    rfl
  have hpost : (tx.meta.map (fun m => m.postBalances)).getD []
      = meta.postBalances := by
    rw [hmeta]
    rfl
  cases hfind :
      (allInstructions tx).find? (isMySystemTransfer accountAddress) with
  | some ix =>
    have hp : isMySystemTransfer accountAddress ix = true :=
      List.find?_some hfind
    have hmem : ix ∈ allInstructions tx := List.mem_of_find?_eq_some hfind
    cases hparsed : ix.parsed with
    | none =>
      rw [isMySystemTransfer, hparsed] at hp
      simp at hp
    | some p =>
      have hsd : p.info.source = accountAddress ∨
          p.info.destination = accountAddress := by
        rw [isMySystemTransfer, hparsed] at hp
        simp only [Bool.and_eq_true, Bool.or_eq_true, decide_eq_true_eq] at hp
        exact hp.2.2
      have hR := extractSOLAddresses_found tx accountAddress ix p hfind hparsed
      rw [hR] at hguard
      simp only [Option.map_some', ne_eq, Option.some.injEq] at hguard
      have hne : p.info.source ≠ p.info.destination := fun hc => hguard hc
      obtain ⟨hs_ne, hd_ne⟩ := hix ix hmem p hparsed
      subst hev
      rw [hR]
      simp only [solLegEvent, Option.map_some', jsOrOptStr, jsOrStr,
        if_neg hs_ne, if_neg hd_ne]
      by_cases hsa : p.info.source = accountAddress
      · left
        exact ⟨hsa, fun hda => hne (by rw [hsa, hda])⟩
      · right
        rcases hsd with h | h
        · exact absurd h hsa
        · exact ⟨hsa, h⟩
  | none =>
    have hidx2 : jsIndexOf (accountKeyStrings tx) accountAddress
        = some myIndex := by
      rw [hkeys]
      exact hidx
    have hbd : balDiff ((tx.meta.map (fun m => m.preBalances)).getD [])
        ((tx.meta.map (fun m => m.postBalances)).getD []) myIndex =
          meta.postBalances.getD myIndex 0 - meta.preBalances.getD myIndex 0 := by
      rw [balDiff, hpre, hpost]
    by_cases hneg : balDiff ((tx.meta.map (fun m => m.preBalances)).getD [])
        ((tx.meta.map (fun m => m.postBalances)).getD []) myIndex < 0
    · obtain ⟨cp, hcp⟩ : ∃ cp, extractSOLAddresses tx accountAddress =
          some ⟨accountAddress, cp⟩ :=
        ⟨_, extractSOLAddresses_fallback_neg tx accountAddress myIndex hfind
          hidx2 hneg⟩
      rw [hcp] at hguard
      simp only [Option.map_some', ne_eq, Option.some.injEq] at hguard
      have hdneg : meta.postBalances.getD myIndex 0 -
          meta.preBalances.getD myIndex 0 < 0 := by
        rw [hbd] at hneg
        exact hneg
      have hsign : ¬ (0 < (↑(meta.postBalances.getD myIndex 0 -
          meta.preBalances.getD myIndex 0) : ℚ) / (LAMPORTS_PER_SOL : ℚ)) := by
        rw [diffSOL_pos_iff]
        omega
      subst hev
      rw [hcp]
      left
      constructor
      · simp only [solLegEvent, Option.map_some', jsOrOptStr, jsOrStr,
          if_neg haddr1]
      · simp only [solLegEvent, Option.map_some', jsOrOptStr, jsOrStr,
          if_neg hsign, ite_false]
        by_cases hcpe : cp = ""
        · rw [if_pos hcpe]
          exact fun hc => haddr2 hc.symm
        · rw [if_neg hcpe]
          exact fun hc => hguard hc.symm
    · obtain ⟨cp, hcp⟩ : ∃ cp, extractSOLAddresses tx accountAddress =
          some ⟨cp, accountAddress⟩ :=
        ⟨_, extractSOLAddresses_fallback_nonneg tx accountAddress myIndex hfind
          hidx2 hneg⟩
      rw [hcp] at hguard
      simp only [Option.map_some', ne_eq, Option.some.injEq] at hguard
      have hdpos : 0 < meta.postBalances.getD myIndex 0 -
          meta.preBalances.getD myIndex 0 := by
        rw [hbd] at hneg
        have h5 : (0 : Int) < MIN_SOL_CHANGE := by norm_num [MIN_SOL_CHANGE]
        rcases abs_cases (meta.postBalances.getD myIndex 0 -
            meta.preBalances.getD myIndex 0) with ⟨habs, _⟩ | ⟨habs, _⟩ <;>
          omega
      have hsign : 0 < (↑(meta.postBalances.getD myIndex 0 -
          meta.preBalances.getD myIndex 0) : ℚ) / (LAMPORTS_PER_SOL : ℚ) := by
        rw [diffSOL_pos_iff]
        exact hdpos
      subst hev
      rw [hcp]
      right
      constructor
      · simp only [solLegEvent, Option.map_some', jsOrOptStr, jsOrStr,
          if_pos hsign, ite_true]
        by_cases hcpe : cp = ""
        · rw [if_pos hcpe]
          exact fun hc => haddr2 hc.symm
        · rw [if_neg hcpe]
          exact fun hc => hguard hc
      · simp only [solLegEvent, Option.map_some', jsOrOptStr, jsOrStr,
          if_neg haddr1]

/-- The increase-scan distributes over list append. -/
theorem maxIncreaseLoop_append (myIndex : Nat) (keys : List String)
    (preBalances postBalances : List Int) :
    ∀ (l1 l2 : List Nat) (acc : Int × String),
      maxIncreaseLoop myIndex keys preBalances postBalances (l1 ++ l2) acc =
        maxIncreaseLoop myIndex keys preBalances postBalances l2
          (maxIncreaseLoop myIndex keys preBalances postBalances l1 acc)
  | [], l2, acc => rfl
  | i :: l1, l2, acc => by
    rw [List.cons_append, maxIncreaseLoop, maxIncreaseLoop,
      maxIncreaseLoop_append myIndex keys preBalances postBalances l1 l2]

/-- The decrease-scan distributes over list append. -/
theorem maxDecreaseLoop_append (myIndex : Nat) (keys : List String)
    (preBalances postBalances : List Int) :
    ∀ (l1 l2 : List Nat) (acc : Int × String),
      maxDecreaseLoop myIndex keys preBalances postBalances (l1 ++ l2) acc =
        maxDecreaseLoop myIndex keys preBalances postBalances l2
          (maxDecreaseLoop myIndex keys preBalances postBalances l1 acc)
  | [], l2, acc => rfl
  | i :: l1, l2, acc => by
    rw [List.cons_append, maxDecreaseLoop, maxDecreaseLoop,
      maxDecreaseLoop_append myIndex keys preBalances postBalances l1 l2]

/-- Characterization of the SENT-branch scan over the first n account
indices: either no other account gains strictly more than the dust threshold
and the accumulator is untouched, or the scan returns the first index
attaining the maximal gain (strict improvement only, so ties keep the
earliest index). -/
theorem maxIncreaseLoop_spec (myIndex : Nat) (keys : List String)
    (preBalances postBalances : List Int) (n : Nat) :
    (maxIncreaseLoop myIndex keys preBalances postBalances (List.range n)
        (MIN_SOL_CHANGE, "external") = (MIN_SOL_CHANGE, "external") ∧
      ∀ i < n, i ≠ myIndex →
        balDiff preBalances postBalances i ≤ MIN_SOL_CHANGE) ∨
      (∃ j, j < n ∧ j ≠ myIndex ∧
        MIN_SOL_CHANGE < balDiff preBalances postBalances j ∧
        maxIncreaseLoop myIndex keys preBalances postBalances (List.range n)
          (MIN_SOL_CHANGE, "external") =
            (balDiff preBalances postBalances j, keys.getD j "") ∧
        (∀ i < n, i ≠ myIndex →
          balDiff preBalances postBalances i ≤
            balDiff preBalances postBalances j) ∧
        ∀ i < j, i ≠ myIndex →
          balDiff preBalances postBalances i <
            balDiff preBalances postBalances j) := by
  induction n with
  | zero =>
    left
    refine ⟨rfl, ?_⟩
    intro i hi
    omega
  | succ n ih =>
    have hsplit : maxIncreaseLoop myIndex keys preBalances postBalances
        (List.range (n + 1)) (MIN_SOL_CHANGE, "external") =
          (if n = myIndex then
            maxIncreaseLoop myIndex keys preBalances postBalances
              (List.range n) (MIN_SOL_CHANGE, "external")
           else if (maxIncreaseLoop myIndex keys preBalances postBalances
              (List.range n) (MIN_SOL_CHANGE, "external")).1 <
                balDiff preBalances postBalances n then
            (balDiff preBalances postBalances n, keys.getD n "")
           else
            maxIncreaseLoop myIndex keys preBalances postBalances
              (List.range n) (MIN_SOL_CHANGE, "external")) := by
      rw [List.range_succ, maxIncreaseLoop_append, maxIncreaseLoop,
        maxIncreaseLoop]
    by_cases hmy : n = myIndex
    · rw [if_pos hmy] at hsplit
      rcases ih with ⟨hr, hall⟩ | ⟨j, hj, hjm, hjgt, hr, hmax, hfirst⟩
      · left
        refine ⟨by rw [hsplit, hr], ?_⟩
        intro i hi him
        rcases Nat.lt_succ_iff_lt_or_eq.mp hi with h | h
        · exact hall i h him
        · subst h
          omega
      · right
        refine ⟨j, by omega, hjm, hjgt, by rw [hsplit, hr], ?_, hfirst⟩
        intro i hi him
        rcases Nat.lt_succ_iff_lt_or_eq.mp hi with h | h
        · exact hmax i h him
        · subst h
          omega
    · rw [if_neg hmy] at hsplit
      rcases ih with ⟨hr, hall⟩ | ⟨j, hj, hjm, hjgt, hr, hmax, hfirst⟩
      · rw [hr] at hsplit
        by_cases hlt : MIN_SOL_CHANGE < balDiff preBalances postBalances n
        · right
          rw [if_pos hlt] at hsplit
          refine ⟨n, by omega, hmy, hlt, hsplit, ?_, ?_⟩
          · intro i hi him
            rcases Nat.lt_succ_iff_lt_or_eq.mp hi with h | h
            · exact le_trans (hall i h him) (le_of_lt hlt)
            · subst h
              omega
          · intro i hi him
            exact lt_of_le_of_lt (hall i hi him) hlt
        · left
          rw [if_neg hlt] at hsplit
          refine ⟨hsplit, ?_⟩
          intro i hi him
          rcases Nat.lt_succ_iff_lt_or_eq.mp hi with h | h
          · exact hall i h him
          · subst h
            omega
      · rw [hr] at hsplit
        by_cases hlt : balDiff preBalances postBalances j <
            balDiff preBalances postBalances n
        · right
          rw [if_pos hlt] at hsplit
          refine ⟨n, by omega, hmy, lt_trans hjgt hlt, hsplit, ?_, ?_⟩
          · intro i hi him
            rcases Nat.lt_succ_iff_lt_or_eq.mp hi with h | h
            · exact le_trans (hmax i h him) (le_of_lt hlt)
            · subst h
              omega
          · intro i hi him
            exact lt_of_le_of_lt (hmax i hi him) hlt
        · right
          rw [if_neg hlt] at hsplit
          refine ⟨j, by omega, hjm, hjgt, hsplit, ?_, hfirst⟩
          intro i hi him
          rcases Nat.lt_succ_iff_lt_or_eq.mp hi with h | h
          · exact hmax i h him
          · subst h
            omega

/-- Characterization of the RECEIVED-branch scan over the first n account
indices: either no other account loses strictly more than the dust threshold
in magnitude and the accumulator is untouched, or the scan returns the first
index attaining the maximal loss magnitude (strict improvement only, so ties
keep the earliest index). -/
theorem maxDecreaseLoop_spec (myIndex : Nat) (keys : List String)
    (preBalances postBalances : List Int) (n : Nat) :
    (maxDecreaseLoop myIndex keys preBalances postBalances (List.range n)
        (MIN_SOL_CHANGE, "external") = (MIN_SOL_CHANGE, "external") ∧
      ∀ i < n, i ≠ myIndex → balDiff preBalances postBalances i < 0 →
        |balDiff preBalances postBalances i| ≤ MIN_SOL_CHANGE) ∨
      (∃ j, j < n ∧ j ≠ myIndex ∧
        balDiff preBalances postBalances j < 0 ∧
        MIN_SOL_CHANGE < |balDiff preBalances postBalances j| ∧
        maxDecreaseLoop myIndex keys preBalances postBalances (List.range n)
          (MIN_SOL_CHANGE, "external") =
            (|balDiff preBalances postBalances j|, keys.getD j "") ∧
        (∀ i < n, i ≠ myIndex → balDiff preBalances postBalances i < 0 →
          |balDiff preBalances postBalances i| ≤
            |balDiff preBalances postBalances j|) ∧
        ∀ i < j, i ≠ myIndex → balDiff preBalances postBalances i < 0 →
          |balDiff preBalances postBalances i| <
            |balDiff preBalances postBalances j|) := by
  induction n with
  | zero =>
    left
    refine ⟨rfl, ?_⟩
    intro i hi
    omega
  | succ n ih =>
    have hsplit : maxDecreaseLoop myIndex keys preBalances postBalances
        (List.range (n + 1)) (MIN_SOL_CHANGE, "external") =
          (if n = myIndex then
            maxDecreaseLoop myIndex keys preBalances postBalances
              (List.range n) (MIN_SOL_CHANGE, "external")
           else if balDiff preBalances postBalances n < 0 ∧
              (maxDecreaseLoop myIndex keys preBalances postBalances
                (List.range n) (MIN_SOL_CHANGE, "external")).1 <
                  |balDiff preBalances postBalances n| then
            (|balDiff preBalances postBalances n|, keys.getD n "")
           else
            maxDecreaseLoop myIndex keys preBalances postBalances
              (List.range n) (MIN_SOL_CHANGE, "external")) := by
      rw [List.range_succ, maxDecreaseLoop_append, maxDecreaseLoop,
        maxDecreaseLoop]
      by_cases hmy : n = myIndex
      · rw [if_pos hmy, if_pos hmy]
      · rw [if_neg hmy, if_neg hmy]
        by_cases hc : balDiff preBalances postBalances n < 0 ∧
            (maxDecreaseLoop myIndex keys preBalances postBalances
              (List.range n) (MIN_SOL_CHANGE, "external")).1 <
                |balDiff preBalances postBalances n|
        · rw [if_pos hc]
          have : (balDiff preBalances postBalances n < 0 &&
              decide ((maxDecreaseLoop myIndex keys preBalances postBalances
                (List.range n) (MIN_SOL_CHANGE, "external")).1 <
                  |balDiff preBalances postBalances n|)) = true := by
            simp only [Bool.and_eq_true, decide_eq_true_eq]
            exact ⟨by simp [hc.1], hc.2⟩
          simp only [this, if_true, ite_true]
        · rw [if_neg hc]
          have : (balDiff preBalances postBalances n < 0 &&
              decide ((maxDecreaseLoop myIndex keys preBalances postBalances
                (List.range n) (MIN_SOL_CHANGE, "external")).1 <
                  |balDiff preBalances postBalances n|)) = false := by
            rw [Bool.and_eq_false_iff]
            by_cases h1 : balDiff preBalances postBalances n < 0
            · right
              rw [decide_eq_false_iff_not]
              exact fun h2 => hc ⟨h1, h2⟩
            · left
              simp [h1]
          simp only [this, if_false, ite_false, Bool.false_eq_true]
    by_cases hmy : n = myIndex
    · rw [if_pos hmy] at hsplit
      rcases ih with ⟨hr, hall⟩ | ⟨j, hj, hjm, hjneg, hjgt, hr, hmax, hfirst⟩
      · left
        refine ⟨by rw [hsplit, hr], ?_⟩
        intro i hi him hin
        rcases Nat.lt_succ_iff_lt_or_eq.mp hi with h | h
        · exact hall i h him hin
        · subst h
          omega
      · right
        refine ⟨j, by omega, hjm, hjneg, hjgt, by rw [hsplit, hr], ?_, hfirst⟩
        intro i hi him hin
        rcases Nat.lt_succ_iff_lt_or_eq.mp hi with h | h
        · exact hmax i h him hin
        · subst h
          omega
    · rw [if_neg hmy] at hsplit
      rcases ih with ⟨hr, hall⟩ | ⟨j, hj, hjm, hjneg, hjgt, hr, hmax, hfirst⟩
      · rw [hr] at hsplit
        by_cases hc : balDiff preBalances postBalances n < 0 ∧
            MIN_SOL_CHANGE < |balDiff preBalances postBalances n|
        · right
          rw [if_pos hc] at hsplit
          refine ⟨n, by omega, hmy, hc.1, hc.2, hsplit, ?_, ?_⟩
          · intro i hi him hin
            rcases Nat.lt_succ_iff_lt_or_eq.mp hi with h | h
            · exact le_trans (hall i h him hin) (le_of_lt hc.2)
            · subst h
              omega
          · intro i hi him hin
            exact lt_of_le_of_lt (hall i hi him hin) hc.2
        · left
          rw [if_neg hc] at hsplit
          refine ⟨hsplit, ?_⟩
          intro i hi him hin
          rcases Nat.lt_succ_iff_lt_or_eq.mp hi with h | h
          · exact hall i h him hin
          · subst h
            by_cases h2 : MIN_SOL_CHANGE < |balDiff preBalances postBalances i|
            · exact absurd ⟨hin, h2⟩ hc
            · omega
      · rw [hr] at hsplit
        by_cases hc : balDiff preBalances postBalances n < 0 ∧
            |balDiff preBalances postBalances j| <
              |balDiff preBalances postBalances n|
        · right
          rw [if_pos hc] at hsplit
          refine ⟨n, by omega, hmy, hc.1, lt_trans hjgt hc.2, hsplit, ?_, ?_⟩
          · intro i hi him hin
            rcases Nat.lt_succ_iff_lt_or_eq.mp hi with h | h
            · exact le_trans (hmax i h him hin) (le_of_lt hc.2)
            · subst h
              omega
          · intro i hi him hin
            exact lt_of_le_of_lt (hmax i hi him hin) hc.2
        · right
          rw [if_neg hc] at hsplit
          refine ⟨j, by omega, hjm, hjneg, hjgt, hsplit, ?_, hfirst⟩
          intro i hi him hin
          rcases Nat.lt_succ_iff_lt_or_eq.mp hi with h | h
          · exact hmax i h him hin
          · subst h
            by_cases h2 : |balDiff preBalances postBalances j| <
                |balDiff preBalances postBalances i|
            · exact absurd ⟨hin, h2⟩ hc
            · omega

/-- C7: in the balance-delta fallback (no matching system transfer, tracked
address present in the account keys), a negative tracked delta picks as
counterparty the account with the largest positive delta strictly above the
dust threshold, scanned in account-key order with replacement only on strict
improvement (first index wins ties), else the external sentinel; a
non-negative tracked delta symmetrically picks the account with the
largest-magnitude negative delta strictly above the dust threshold, same
tie-break, else the external sentinel. -/
theorem C7_fallback_counterparty (tx : ParsedTransactionWithMeta)
    (myAddress : String) (myIndex : Nat)
    (keys : List String) (preB postB : List Int)
    (hkeys : keys = accountKeyStrings tx)
    (hpre : preB = (tx.meta.map (fun m => m.preBalances)).getD [])
    (hpost : postB = (tx.meta.map (fun m => m.postBalances)).getD [])
    (hfind : (allInstructions tx).find? (isMySystemTransfer myAddress) = none)
    (hidx : jsIndexOf keys myAddress = some myIndex) :
    (balDiff preB postB myIndex < 0 →
      ((∃ j, j < keys.length ∧ j ≠ myIndex ∧
          MIN_SOL_CHANGE < balDiff preB postB j ∧
          extractSOLAddresses tx myAddress =
            some ⟨myAddress, keys.getD j ""⟩ ∧
          (∀ i < keys.length, i ≠ myIndex →
            balDiff preB postB i ≤ balDiff preB postB j) ∧
          ∀ i < j, i ≠ myIndex →
            balDiff preB postB i < balDiff preB postB j) ∨
        ((∀ i < keys.length, i ≠ myIndex →
            balDiff preB postB i ≤ MIN_SOL_CHANGE) ∧
          extractSOLAddresses tx myAddress =
            some ⟨myAddress, "external"⟩))) ∧
      (0 ≤ balDiff preB postB myIndex →
        ((∃ j, j < keys.length ∧ j ≠ myIndex ∧
            balDiff preB postB j < 0 ∧
            MIN_SOL_CHANGE < |balDiff preB postB j| ∧
            extractSOLAddresses tx myAddress =
              some ⟨keys.getD j "", myAddress⟩ ∧
            (∀ i < keys.length, i ≠ myIndex → balDiff preB postB i < 0 →
              |balDiff preB postB i| ≤ |balDiff preB postB j|) ∧
            ∀ i < j, i ≠ myIndex → balDiff preB postB i < 0 →
              |balDiff preB postB i| < |balDiff preB postB j|) ∨
          ((∀ i < keys.length, i ≠ myIndex → balDiff preB postB i < 0 →
              |balDiff preB postB i| ≤ MIN_SOL_CHANGE) ∧
            extractSOLAddresses tx myAddress =
              some ⟨"external", myAddress⟩))) := by
  subst hkeys
  subst hpre
  subst hpost
  constructor
  · intro hneg
    have hR := extractSOLAddresses_fallback_neg tx myAddress myIndex hfind
      hidx hneg
    rcases maxIncreaseLoop_spec myIndex (accountKeyStrings tx)
        ((tx.meta.map (fun m => m.preBalances)).getD [])
        ((tx.meta.map (fun m => m.postBalances)).getD [])
        (accountKeyStrings tx).length with
      ⟨hr, hall⟩ | ⟨j, hj, hjm, hjgt, hr, hmax, hfirst⟩
    · right
      refine ⟨hall, ?_⟩
      rw [hR, hr]
    · left
      refine ⟨j, hj, hjm, hjgt, ?_, hmax, hfirst⟩
      rw [hR, hr]
  · intro hnn
    have hR := extractSOLAddresses_fallback_nonneg tx myAddress myIndex hfind
      hidx (not_lt.mpr hnn)
    rcases maxDecreaseLoop_spec myIndex (accountKeyStrings tx)
        ((tx.meta.map (fun m => m.preBalances)).getD [])
        ((tx.meta.map (fun m => m.postBalances)).getD [])
        (accountKeyStrings tx).length with
      ⟨hr, hall⟩ | ⟨j, hj, hjm, hjneg, hjgt, hr, hmax, hfirst⟩
    · right
      refine ⟨hall, ?_⟩
      rw [hR, hr]
    · left
      refine ⟨j, hj, hjm, hjneg, hjgt, ?_, hmax, hfirst⟩
      rw [hR, hr]

/-- C7 witness: in txFallbackTie the tracked account A pays out 20000
lamports while B and C each gain 10000 (a tie); the fallback resolution is
exercised at this concrete transaction through the theorem, forcing the
first-encountered account as counterparty. -/
theorem C7_fallback_counterparty_witness :
    (balDiff [100000, 0, 0] [80000, 10000, 10000] 0 < 0 →
      ((∃ j, j < (["A", "B", "C"] : List String).length ∧ j ≠ 0 ∧
          MIN_SOL_CHANGE < balDiff [100000, 0, 0] [80000, 10000, 10000] j ∧
          extractSOLAddresses txFallbackTie "A" =
            some ⟨"A", (["A", "B", "C"] : List String).getD j ""⟩ ∧
          (∀ i < (["A", "B", "C"] : List String).length, i ≠ 0 →
            balDiff [100000, 0, 0] [80000, 10000, 10000] i ≤
              balDiff [100000, 0, 0] [80000, 10000, 10000] j) ∧
          ∀ i < j, i ≠ 0 →
            balDiff [100000, 0, 0] [80000, 10000, 10000] i <
              balDiff [100000, 0, 0] [80000, 10000, 10000] j) ∨
        ((∀ i < (["A", "B", "C"] : List String).length, i ≠ 0 →
            balDiff [100000, 0, 0] [80000, 10000, 10000] i ≤
              MIN_SOL_CHANGE) ∧
          extractSOLAddresses txFallbackTie "A" =
            some ⟨"A", "external"⟩))) ∧
      (0 ≤ balDiff [100000, 0, 0] [80000, 10000, 10000] 0 →
        ((∃ j, j < (["A", "B", "C"] : List String).length ∧ j ≠ 0 ∧
            balDiff [100000, 0, 0] [80000, 10000, 10000] j < 0 ∧
            MIN_SOL_CHANGE <
              |balDiff [100000, 0, 0] [80000, 10000, 10000] j| ∧
            extractSOLAddresses txFallbackTie "A" =
              some ⟨(["A", "B", "C"] : List String).getD j "", "A"⟩ ∧
            (∀ i < (["A", "B", "C"] : List String).length, i ≠ 0 →
              balDiff [100000, 0, 0] [80000, 10000, 10000] i < 0 →
              |balDiff [100000, 0, 0] [80000, 10000, 10000] i| ≤
                |balDiff [100000, 0, 0] [80000, 10000, 10000] j|) ∧
            ∀ i < j, i ≠ 0 →
              balDiff [100000, 0, 0] [80000, 10000, 10000] i < 0 →
              |balDiff [100000, 0, 0] [80000, 10000, 10000] i| <
                |balDiff [100000, 0, 0] [80000, 10000, 10000] j|) ∨
          ((∀ i < (["A", "B", "C"] : List String).length, i ≠ 0 →
              balDiff [100000, 0, 0] [80000, 10000, 10000] i < 0 →
              |balDiff [100000, 0, 0] [80000, 10000, 10000] i| ≤
                MIN_SOL_CHANGE) ∧
            extractSOLAddresses txFallbackTie "A" =
              some ⟨"external", "A"⟩))) :=
  C7_fallback_counterparty txFallbackTie "A" 0 ["A", "B", "C"]
    [100000, 0, 0] [80000, 10000, 10000] rfl rfl rfl rfl rfl

/-- C1 counterexample: formatTransactions emits, for a tracked address that is
not the external sentinel, a token-leg event neither side of which is the
tracked address, because the token counterparty resolution found no spl-token
transfer instruction and fell back to the pair (external, external). So it is
not the case that exactly one of from and to equals the tracked address for
every emitted event. -/
theorem C1_counterexample :
    formatTransactions "Alice" [txTokenNoIx] ≠ [] ∧
      ∀ e ∈ formatTransactions "Alice" [txTokenNoIx],
        e.fromAddr ≠ "Alice" ∧ e.toAddr ≠ "Alice" := by
  have h : formatTransactions "Alice" [txTokenNoIx] =
      [{ signature := "sig1", type := "received", token := "MintX",
         amount := 5, fromAddr := "external", toAddr := "external",
         time := some 1700000000000 }] := by
    norm_num [formatTransactions, formatOneTx, txTokenNoIx, jsIndexOf,
      indexOfAux, tokenLegEvents, tokenLegEvent?, extractTokenAddresses,
      allInstructions, topInstructions, innerInstrs, isSplTransfer,
      accountKeyStrings, resolveOwner, findOwnerIn, preUiAmount, jsOrOptStr,
      jsOrStr, jsTime, MIN_SOL_CHANGE, USDC_MINT]
    decide
  rw [h]
  refine ⟨by simp, ?_⟩
  intro e he
  rw [List.mem_singleton] at he
  subst he
  exact ⟨by decide, by decide⟩

/-- C2 counterexample: a token self-transfer between two token accounts owned
by the tracked address resolves with from equal to to, yet formatTransactions
emits an event for each of its legs; the self-transfer check of the source
only guards the native leg. -/
theorem C2_counterexample :
    formatTransactions "Alice" [txTokenSelf] ≠ [] ∧
      ∀ e ∈ formatTransactions "Alice" [txTokenSelf],
        e.fromAddr = e.toAddr := by
  have h : formatTransactions "Alice" [txTokenSelf] =
      [{ signature := "sig2", type := "sent", token := "MintX",
         amount := 2, fromAddr := "Alice", toAddr := "Alice",
         time := some 1700000000000 },
       { signature := "sig2", type := "received", token := "MintX",
         amount := 2, fromAddr := "Alice", toAddr := "Alice",
         time := some 1700000000000 }] := by
    norm_num [formatTransactions, formatOneTx, txTokenSelf, ixTokenSelf,
      jsIndexOf, indexOfAux, tokenLegEvents, tokenLegEvent?,
      extractTokenAddresses, allInstructions, topInstructions, innerInstrs,
      isSplTransfer, accountKeyStrings, resolveOwner, findOwnerIn, preUiAmount,
      jsOrOptStr, jsOrStr, jsTime, MIN_SOL_CHANGE, USDC_MINT]
    decide
  rw [h]
  refine ⟨by simp, ?_⟩
  intro e he
  rw [List.mem_cons, List.mem_singleton] at he
  rcases he with he | he <;> subst he <;> rfl

/-- C3: at the failing input, the native leg of the transaction resolves as a
self-transfer, and the continue statement of the source skips the whole
transaction, so the non-zero token leg owned by the tracked address (whose
event the token loop would have produced) is suppressed and zero events are
emitted. -/
theorem C3_continue_suppresses_token_legs :
    formatTransactions "Alice" [txSelfPlusToken] = [] ∧
      tokenLegEventsOfTx "Alice" txSelfPlusToken ≠ [] := by
  constructor
  · norm_num [formatTransactions, formatOneTx, txSelfPlusToken, ixSolSelf,
      jsIndexOf, indexOfAux, extractSOLAddresses, allInstructions,
      topInstructions, innerInstrs, isMySystemTransfer, accountKeyStrings,
      MIN_SOL_CHANGE]
  · have h : tokenLegEventsOfTx "Alice" txSelfPlusToken =
        [{ signature := "sig3", type := "received", token := "MintX",
           amount := 7, fromAddr := "external", toAddr := "external",
           time := some 1700000000000 }] := by
      norm_num [tokenLegEventsOfTx, txSelfPlusToken, ixSolSelf, jsIndexOf,
        indexOfAux, tokenLegEvents, tokenLegEvent?, extractTokenAddresses,
        allInstructions, topInstructions, innerInstrs, isSplTransfer,
        accountKeyStrings, resolveOwner, findOwnerIn, preUiAmount, jsOrOptStr,
        jsOrStr, jsTime, MIN_SOL_CHANGE, USDC_MINT]
      decide
    rw [h]
    simp

/-- C4 counterexample: a failing fetchTransactions call with reset true
clears the pagination cursor before the fetch, so after the failure the
cursor differs from its pre-call value; the claim quantifies over every reset
value and is therefore false. -/
theorem C4_counterexample :
    (fetchTransactions failingFetcher true sampleState).lastSignature = none ∧
      sampleState.lastSignature = some "a" ∧
      (fetchTransactions failingFetcher true sampleState).lastSignature ≠
        sampleState.lastSignature := by
  decide

/-- Membership in the generalized first-seen fold. -/
theorem mem_firstSeen_foldl :
    ∀ (l : List String) (acc : List String) (x : String),
      (x ∈ l.foldl (fun acc y => if y ∈ acc then acc else acc ++ [y]) acc ↔
        x ∈ acc ∨ x ∈ l)
  | [], acc, x => by simp
  | y :: l, acc, x => by
    rw [List.foldl_cons, mem_firstSeen_foldl l]
    by_cases hy : y ∈ acc
    · rw [if_pos hy]
      constructor
      · rintro (h | h)
        · exact Or.inl h
        · exact Or.inr (List.mem_cons_of_mem y h)
      · rintro (h | h)
        · exact Or.inl h
        · rcases List.mem_cons.mp h with h | h
          · exact Or.inl (h ▸ hy)
          · exact Or.inr h
    · rw [if_neg hy]
      constructor
      · rintro (h | h)
        · rcases List.mem_append.mp h with h | h
          · exact Or.inl h
          · rw [List.mem_singleton] at h
            exact Or.inr (h ▸ List.mem_cons_self y l)
        · exact Or.inr (List.mem_cons_of_mem y h)
      · rintro (h | h)
        · exact Or.inl (List.mem_append_left _ h)
        · rcases List.mem_cons.mp h with h | h
          · exact Or.inl (List.mem_append_right _ (h ▸ List.mem_singleton.mpr rfl))
          · exact Or.inr h

/-- A label belongs to the first-seen title list exactly when it occurs in
the input. -/
theorem mem_firstSeenTitles (l : List String) (x : String) :
    x ∈ firstSeenTitles l ↔ x ∈ l := by
  rw [firstSeenTitles, mem_firstSeen_foldl]
  simp

/-- The generalized first-seen fold preserves freedom from duplicates. -/
theorem firstSeen_foldl_nodup :
    ∀ (l : List String) (acc : List String), acc.Nodup →
      (l.foldl (fun acc y => if y ∈ acc then acc else acc ++ [y]) acc).Nodup
  | [], acc, h => h
  | y :: l, acc, h => by
    rw [List.foldl_cons]
    apply firstSeen_foldl_nodup l
    by_cases hy : y ∈ acc
    · rw [if_pos hy]
      exact h
    · rw [if_neg hy]
      rw [List.nodup_append]
      refine ⟨h, List.nodup_singleton y, ?_⟩
      intro a ha hay
      rw [List.mem_singleton] at hay
      exact hy (hay ▸ ha)

/-- The first-seen title list has no duplicates. -/
theorem firstSeenTitles_nodup (l : List String) :
    (firstSeenTitles l).Nodup :=
  firstSeen_foldl_nodup l [] List.nodup_nil

/-- Appending one label to the input extends the first-seen titles exactly
when the label is new. -/
theorem firstSeenTitles_append (l : List String) (x : String) :
    firstSeenTitles (l ++ [x]) =
      if x ∈ firstSeenTitles l then firstSeenTitles l
      else firstSeenTitles l ++ [x] := by
  unfold firstSeenTitles
  rw [List.foldl_append]
  rfl

/-- Pushing into a bucket keeps the key list when the key exists and appends
it at the end otherwise. -/
theorem insertGrouped_map_fst
    (acc : List (String × List FormattedTransaction)) (title : String)
    (t : FormattedTransaction) :
    (insertGrouped acc title t).map Prod.fst =
      if title ∈ acc.map Prod.fst then acc.map Prod.fst
      else acc.map Prod.fst ++ [title] := by
  unfold insertGrouped
  by_cases h : acc.any (fun p => p.1 = title)
  · rw [if_pos h]
    have hmem : title ∈ acc.map Prod.fst := by
      rw [List.any_eq_true] at h
      obtain ⟨p, hp, hpt⟩ := h
      rw [decide_eq_true_eq] at hpt
      exact hpt ▸ List.mem_map_of_mem Prod.fst hp
    rw [if_pos hmem, List.map_map]
    apply List.map_congr_left
    intro p hp
    by_cases hpt : p.1 = title
    · simp [hpt]
    · simp [hpt]
  · rw [if_neg h]
    have hmem : title ∉ acc.map Prod.fst := by
      intro hcon
      obtain ⟨p, hp, hpt⟩ := List.mem_map.mp hcon
      rw [List.any_eq_true] at h
      exact h ⟨p, hp, decide_eq_true hpt⟩
    rw [if_neg hmem, List.map_append]
    rfl

/-- Invariant of the grouping fold: the key list is the first-seen title
order of the labels processed so far, and each bucket holds the processed
transactions with that label, in input order. -/
theorem groupedFold_invariant (f : FormattedTransaction → String) :
    ∀ (rest done : List FormattedTransaction)
      (acc : List (String × List FormattedTransaction)),
      acc.map Prod.fst = firstSeenTitles (done.map f) →
      (∀ p ∈ acc, p.2 = done.filter (fun t => f t = p.1)) →
      ((rest.foldl (fun a t => insertGrouped a (f t) t) acc).map Prod.fst =
          firstSeenTitles ((done ++ rest).map f) ∧
        ∀ p ∈ rest.foldl (fun a t => insertGrouped a (f t) t) acc,
          p.2 = (done ++ rest).filter (fun t => f t = p.1))
  | [], done, acc, hfst, hval => by
    constructor
    · simpa using hfst
    · simpa using hval
  | t :: rest, done, acc, hfst, hval => by
    have hstep1 : (insertGrouped acc (f t) t).map Prod.fst =
        firstSeenTitles ((done ++ [t]).map f) := by
      rw [insertGrouped_map_fst, List.map_append, List.map_singleton,
        firstSeenTitles_append, hfst]
    have hstep2 : ∀ p ∈ insertGrouped acc (f t) t,
        p.2 = (done ++ [t]).filter (fun u => f u = p.1) := by
      intro p hp
      unfold insertGrouped at hp
      by_cases hany : acc.any (fun q => q.1 = f t)
      · rw [if_pos hany] at hp
        obtain ⟨q, hq, hpq⟩ := List.mem_map.mp hp
        by_cases hq1 : q.1 = f t
        · rw [if_pos hq1] at hpq
          subst hpq
          have hfu : f t = q.1 := hq1.symm
          simp only [List.filter_append]
          rw [← hval q hq]
          simp [hfu]
        · rw [if_neg hq1] at hpq
          subst hpq
          have hfu : ¬ (f t = q.1) := fun hc => hq1 hc.symm
          simp only [List.filter_append]
          rw [← hval q hq]
          simp [hfu]
      · rw [if_neg hany] at hp
        rcases List.mem_append.mp hp with hp | hp
        · have hne : ¬ (f t = p.1) := by
            intro hc
            rw [List.any_eq_true] at hany
            exact hany ⟨p, hp, decide_eq_true hc.symm⟩
          simp only [List.filter_append]
          rw [← hval p hp]
          simp [hne]
        · rw [List.mem_singleton] at hp
          subst hp
          have hnew : f t ∉ done.map f := by
            intro hcon
            have : f t ∈ firstSeenTitles (done.map f) :=
              (mem_firstSeenTitles _ _).mpr hcon
            rw [← hfst] at this
            obtain ⟨q, hq, hq1⟩ := List.mem_map.mp this
            rw [List.any_eq_true] at hany
            exact hany ⟨q, hq, decide_eq_true hq1⟩
          have hdone : done.filter (fun u => f u = f t) = [] := by
            rw [List.filter_eq_nil_iff]
            intro u hu
            simp only [decide_eq_true_eq]
            exact fun hc => hnew (hc ▸ List.mem_map_of_mem f hu)
          simp [List.filter_append, hdone]
    have hrec := groupedFold_invariant f rest (done ++ [t])
      (insertGrouped acc (f t) t) hstep1 hstep2
    constructor
    · rw [List.foldl_cons]
      have := hrec.1
      rwa [List.append_assoc, List.singleton_append] at this
    · rw [List.foldl_cons]
      intro p hp
      have := hrec.2 p hp
      rwa [List.append_assoc, List.singleton_append] at this

/-- C8: groupTransactionsByDate partitions its input: section titles are the
first-seen order of the labels of the input events; titles are pairwise
distinct (so no event appears in more than one section); each section holds
exactly the input events carrying its label, in input order; and every input
event lands in some section. -/
theorem C8_grouping (today yesterday nowDate : JsDate) (fmt : JsDate → String)
    (components : Int → JsDate)
    (transactions : List FormattedTransaction) :
    ((groupTransactionsByDate today yesterday nowDate fmt components
        transactions).map (fun sec => sec.title) =
      firstSeenTitles (transactions.map
        (txLabel today yesterday nowDate fmt components)) ∧
      ((groupTransactionsByDate today yesterday nowDate fmt components
        transactions).map (fun sec => sec.title)).Nodup) ∧
      (∀ sec ∈ groupTransactionsByDate today yesterday nowDate fmt components
          transactions,
        sec.data = transactions.filter (fun t =>
          txLabel today yesterday nowDate fmt components t = sec.title)) ∧
      ∀ t ∈ transactions,
        ∃ sec ∈ groupTransactionsByDate today yesterday nowDate fmt components
          transactions, t ∈ sec.data := by
  by_cases hnil : transactions = []
  · subst hnil
    refine ⟨⟨?_, ?_⟩, ?_, ?_⟩ <;>
      simp [groupTransactionsByDate, firstSeenTitles]
  · obtain ⟨hfst, hval⟩ := groupedFold_invariant
      (txLabel today yesterday nowDate fmt components) transactions [] []
      (by rw [List.map_nil]; rfl) (by simp)
    rw [List.nil_append] at hfst hval
    have hgroup : groupTransactionsByDate today yesterday nowDate fmt
        components transactions =
      (transactions.foldl
        (fun a t =>
          insertGrouped a (txLabel today yesterday nowDate fmt components t) t)
        []).map (fun p => ⟨p.1, p.2⟩) := by
      unfold groupTransactionsByDate
      rw [if_neg hnil]
    have htitles : (groupTransactionsByDate today yesterday nowDate fmt
        components transactions).map (fun sec => sec.title) =
          (transactions.foldl
            (fun a t =>
              insertGrouped a (txLabel today yesterday nowDate fmt components t)
                t) []).map Prod.fst := by
      rw [hgroup, List.map_map]
      rfl
    refine ⟨⟨?_, ?_⟩, ?_, ?_⟩
    · rw [htitles, hfst]
    · rw [htitles, hfst]
      exact firstSeenTitles_nodup _
    · intro sec hsec
      rw [hgroup] at hsec
      obtain ⟨p, hp, hps⟩ := List.mem_map.mp hsec
      subst hps
      exact hval p hp
    · intro t ht
      have hlabmem : txLabel today yesterday nowDate fmt components t ∈
          (transactions.foldl
            (fun a t =>
              insertGrouped a (txLabel today yesterday nowDate fmt components t)
                t) []).map Prod.fst := by
        rw [hfst, mem_firstSeenTitles]
        exact List.mem_map_of_mem _ ht
      obtain ⟨p, hp, hp1⟩ := List.mem_map.mp hlabmem
      refine ⟨⟨p.1, p.2⟩, ?_, ?_⟩
      · rw [hgroup]
        exact List.mem_map_of_mem _ hp
      · have := hval p hp
        simp only at this
        rw [this, List.mem_filter]
        exact ⟨ht, decide_eq_true (hp1 ▸ rfl)⟩

/-- C1 amended witness: the plain native send txSolSend emits the concrete
native-leg event evSolSend, and the directional invariant holds at it through
the theorem. -/
theorem C1_native_exactly_one_witness :
    evSolSend ∈ solLegEvents "Alice" txSolSend ∧
      ((evSolSend.fromAddr = "Alice" ∧ evSolSend.toAddr ≠ "Alice") ∨
        (evSolSend.fromAddr ≠ "Alice" ∧ evSolSend.toAddr = "Alice")) := by
  have hmem : evSolSend ∈ solLegEvents "Alice" txSolSend := by
    have h : solLegEvents "Alice" txSolSend = [evSolSend] := by
      norm_num [solLegEvents, txSolSend, ixSolSend, jsIndexOf, indexOfAux,
        extractSOLAddresses, allInstructions, topInstructions, innerInstrs,
        isMySystemTransfer, solLegEvent, jsOrOptStr, jsOrStr, jsTime,
        MIN_SOL_CHANGE, LAMPORTS_PER_SOL, evSolSend, accountKeyStrings]
      rw [if_neg (by decide : ¬("Alice" = "Bob")),
        if_neg (by decide : ¬("Bob" = ""))]
      norm_num
    rw [h]
    exact List.mem_singleton.mpr rfl
  refine ⟨hmem, ?_⟩
  exact C1_native_exactly_one "Alice" txSolSend (by decide) (by decide)
    (by
      intro ix hm p hp
      have hix : ix = ixSolSend := by
        simpa [allInstructions, topInstructions, innerInstrs, txSolSend]
          using hm
      subst hix
      simp only [ixSolSend, Option.some.injEq] at hp
      subst hp
      exact ⟨by decide, by decide⟩)
    evSolSend hmem

/-- C8 witness: the grouping invariants are exercised at a concrete list of
two events under a concrete clock and formatter through the theorem. -/
theorem C8_grouping_witness :
    ((groupTransactionsByDate ⟨2024, 4, 2⟩ ⟨2024, 4, 1⟩ ⟨2024, 4, 2⟩
        (fun d => toString d.day) (fun ms => ⟨2024, 3, ms⟩)
        [sampleEvent, sampleEvent2]).map (fun sec => sec.title) =
      firstSeenTitles ([sampleEvent, sampleEvent2].map
        (txLabel ⟨2024, 4, 2⟩ ⟨2024, 4, 1⟩ ⟨2024, 4, 2⟩
          (fun d => toString d.day) (fun ms => ⟨2024, 3, ms⟩))) ∧
      ((groupTransactionsByDate ⟨2024, 4, 2⟩ ⟨2024, 4, 1⟩ ⟨2024, 4, 2⟩
        (fun d => toString d.day) (fun ms => ⟨2024, 3, ms⟩)
        [sampleEvent, sampleEvent2]).map (fun sec => sec.title)).Nodup) ∧
      (∀ sec ∈ groupTransactionsByDate ⟨2024, 4, 2⟩ ⟨2024, 4, 1⟩ ⟨2024, 4, 2⟩
          (fun d => toString d.day) (fun ms => ⟨2024, 3, ms⟩)
          [sampleEvent, sampleEvent2],
        sec.data = [sampleEvent, sampleEvent2].filter (fun t =>
          txLabel ⟨2024, 4, 2⟩ ⟨2024, 4, 1⟩ ⟨2024, 4, 2⟩
            (fun d => toString d.day) (fun ms => ⟨2024, 3, ms⟩) t =
              sec.title)) ∧
      ∀ t ∈ [sampleEvent, sampleEvent2],
        ∃ sec ∈ groupTransactionsByDate ⟨2024, 4, 2⟩ ⟨2024, 4, 1⟩
          ⟨2024, 4, 2⟩ (fun d => toString d.day) (fun ms => ⟨2024, 3, ms⟩)
          [sampleEvent, sampleEvent2], t ∈ sec.data :=
  C8_grouping ⟨2024, 4, 2⟩ ⟨2024, 4, 1⟩ ⟨2024, 4, 2⟩
    (fun d => toString d.day) (fun ms => ⟨2024, 3, ms⟩)
    [sampleEvent, sampleEvent2]

end NextVibe
